import Mathlib

/-!
# Verification of the waveterm server-side persistence core

This file gives a shallow embedding, in Lean 4, of the parts of the
waveterm repository that the verified claims are about:

* the blockstore (`wavesrv/pkg/blockstore/blockstore.go`): chunked,
  cache-backed positional file I/O with optional circular wrap-around;
* the workspace SQL mutators (`wavesrv/pkg/sstore/dbops.go`,
  `wavesrv/pkg/workspaces/line/dbops.go`, and the `screen` package):
  line insertion/deletion, the screen-update log, the shell-state diff
  store and screen archiving.

Go code is translated function by function.  Pointer mutation becomes
explicit state passing, Go's `(value, error)` returns become product or
sum types, and a Go runtime panic (out-of-range slice index, division
by zero) is modelled by a distinguished `panic` outcome.  Machine
integers (`int`, `int64`) are modelled by `Int`: none of the embedded
code paths come near 2^63, so wrap-around is irrelevant.  Byte values
are modelled by `Nat`; no arithmetic is ever performed on them.
`time.Now()` results are passed in as explicit `ts` arguments (their
values are never branched on).  SQL tables become lists of row
structures; `INSERT` appends, `DELETE` filters, `UPDATE` maps, and a
transaction that returns an error leaves the store unchanged
(rollback).
-/

namespace Waveterm

/-! ## Blockstore: constants and data model (blockstore.go) -/

/-- `UnitsKB = 1024 * 1024` (sic: the source constant is actually one
mebibyte, despite its name). -/
def UnitsKB : Int := 1024 * 1024

/-- `PartSize = int64(128 * UnitsKB)` -/
def PartSize : Int := 128 * UnitsKB

/-- `FileOptsType` -/
structure FileOptsType where
  MaxSize : Int
  Circular : Bool
  IJson : Bool
deriving Repr, DecidableEq

deriving instance DecidableEq for Except

/-- `FileMeta = map[string]any`: modelled as an association list with
opaque (string) values; the embedded code never inspects the values. -/
def FileMeta := List (String × String)
deriving instance Repr, DecidableEq for FileMeta

/-- `FileInfo` -/
structure FileInfo where
  BlockId : String
  Name : String
  Size : Int
  CreatedTs : Int
  ModTs : Int
  Opts : FileOptsType
  Meta : FileMeta
deriving Repr, DecidableEq

/-- `CacheBlock` (the `data`/`size`/`dirty` triple). -/
structure CacheBlock where
  data : List Nat
  size : Int
  dirty : Bool
deriving Repr, DecidableEq

/-- `CacheEntry`.  The per-entry mutex is dropped (the embedding is the
single-threaded semantics); `CacheTs` is kept but never branched on. -/
structure CacheEntry where
  CacheTs : Int
  Info : FileInfo
  DataBlocks : List (Option CacheBlock)
  Refs : Int
deriving Repr, DecidableEq

/-- Modelled from the spec: a row of the SQL backend for one blockstore
file: its `FileInfo` plus the stored data parts, keyed by part index
(`WriteDataBlockToDB` upserts a part, `GetCacheFromDB` reads one). -/
structure DBFileEntry where
  info : FileInfo
  parts : List (Nat × List Nat)
deriving Repr, DecidableEq

/-- The global state of the blockstore: the in-memory cache
(`blockstoreCache`, a map keyed by `cacheKey{BlockId, Name}`) and the
SQL backend (modelled from the spec as a keyed store). -/
structure BSState where
  cache : List ((String × String) × CacheEntry)
  db : List ((String × String) × DBFileEntry)
deriving Repr, DecidableEq

/-- Association-list lookup (Go map read). -/
def findEnt {α : Type} (l : List ((String × String) × α)) (key : String × String) :
    Option α :=
  match l with
  | [] => none
  | (k, v) :: rest => if k = key then some v else findEnt rest key

/-- Association-list update of an existing key (Go pointer mutation of
the entry stored in the map); keys that are absent are left alone. -/
def mapEnt {α : Type} (l : List ((String × String) × α)) (key : String × String)
    (f : α → α) : List ((String × String) × α) :=
  match l with
  | [] => []
  | (k, v) :: rest =>
    if k = key then (k, f v) :: rest else (k, v) :: mapEnt rest key f

/-- Association-list removal (Go `delete`). -/
def delEnt {α : Type} (l : List ((String × String) × α)) (key : String × String) :
    List ((String × String) × α) :=
  match l with
  | [] => []
  | (k, v) :: rest => if k = key then delEnt rest key else (k, v) :: delEnt rest key

/-- Look up a part in a `DBFileEntry` (modelled from the spec). -/
def findPart (parts : List (Nat × List Nat)) (idx : Nat) : Option (List Nat) :=
  match parts with
  | [] => none
  | (k, v) :: rest => if k = idx then some v else findPart rest idx

/-- Upsert a part in a `DBFileEntry` (modelled from the spec). -/
def setPart (parts : List (Nat × List Nat)) (idx : Nat) (data : List Nat) :
    List (Nat × List Nat) :=
  match parts with
  | [] => [(idx, data)]
  | (k, v) :: rest =>
    if k = idx then (k, data) :: rest else (k, v) :: setPart rest idx data

/-! ## Blockstore: cache buffer writes (`WriteToCacheBuf`) -/

/-- The error values the blockstore functions return.  `maxSize` is the
`MaxSizeError` sentinel; everything else is compared only against it. -/
inductive BSError where
  | maxSize
  | other (msg : String)
deriving Repr, DecidableEq

/-- Result of `WriteToCacheBuf`: the (possibly mutated) buffer, the
returned byte count, and the returned error; `panic` models a Go
runtime panic (negative slice index). -/
inductive BufRes where
  | ok (buf : List Nat) (n : Int) (e : Option BSError)
  | panic
deriving Repr, DecidableEq

/-- The `for index := pos; index < bytesToWrite+pos; index++` loop of
`WriteToCacheBuf`.  `j` is the iteration number (`index = pos + j`),
`fuel` the remaining trip count; when the loop completes the function
returns `bytesToWrite`. -/
def writeBufLoop (p : List Nat) (pos maxWrite bytesToWrite : Int)
    (buf : List Nat) (j : Nat) : Nat → BufRes
  | 0 => .ok buf bytesToWrite none
  | fuel + 1 =>
    if (j : Int) ≥ (p.length : Int) then .ok buf (p.length : Int) none
    else if pos + (j : Int) ≥ maxWrite then .ok buf (j : Int) (some .maxSize)
    else
      let curByte := p.getD j 0
      let index := pos + (j : Int)
      if index < 0 then .panic
      else if index.toNat = buf.length then
        writeBufLoop p pos maxWrite bytesToWrite (buf ++ [curByte]) (j + 1) fuel
      else if index.toNat < buf.length then
        writeBufLoop p pos maxWrite bytesToWrite (buf.set index.toNat curByte) (j + 1) fuel
      else .panic

/-- `WriteToCacheBuf(buf, p, pos, length, maxWrite)`. -/
def WriteToCacheBuf (buf p : List Nat) (pos length maxWrite : Int) : BufRes :=
  if pos > (buf.length : Int) then
    .ok buf 0 (some (.other "writing to a position in the cache that doesn't exist yet"))
  else if pos + length > PartSize then
    .ok buf 0 (some (.other "writing more bytes than max block size, not allowed"))
  else writeBufLoop p pos maxWrite length buf 0 length.toNat

/-! ## Blockstore: cache entries, `Stat`, `GetCacheBlock` -/

/-- `GetCacheEntry` (a map read under the global lock). -/
def GetCacheEntry (s : BSState) (blockId name : String) : Option CacheEntry :=
  findEnt s.cache (blockId, name)

/-- Modelled from the spec: `GetFileInfo` reads the file row from the
SQL backend (`sstore`); absent rows are an error. -/
def GetFileInfo (s : BSState) (blockId name : String) : Option FileInfo :=
  (findEnt s.db (blockId, name)).map (·.info)

/-- `setCacheEntry`: inserts the entry only if the key is absent. -/
def setCacheEntry (s : BSState) (key : String × String) (e : CacheEntry) : BSState :=
  if (findEnt s.cache key).isSome then s
  else { s with cache := s.cache ++ [(key, e)] }

/-- `Stat`: return a deep copy of the cached `FileInfo`, populating the
cache entry from the SQL backend when absent.  Deep copies are
identities on immutable Lean values.  `MakeCacheEntry`'s `CacheTs`
(`time.Now()`) is modelled as `0`; it is never read. -/
def Stat (s : BSState) (blockId name : String) : BSState × Except String FileInfo :=
  match GetCacheEntry s blockId name with
  | some e => (s, .ok e.Info)
  | none =>
    match GetFileInfo s blockId name with
    | none => (s, .error "file not found")
    | some fInfo =>
      let entry : CacheEntry := { CacheTs := 0, Info := fInfo, DataBlocks := [], Refs := 0 }
      (setCacheEntry s (blockId, name) entry, .ok fInfo)

/-- `GetCacheEntryOrPopulate`. -/
def GetCacheEntryOrPopulate (s : BSState) (blockId name : String) :
    BSState × Except String CacheEntry :=
  match GetCacheEntry s blockId name with
  | some e => (s, .ok e)
  | none =>
    match Stat s blockId name with
    | (s1, .error e) => (s1, .error e)
    | (s1, .ok _) =>
      match GetCacheEntry s1 blockId name with
      | some e => (s1, .ok e)
      | none => (s1, .error "error getting cache entry")

/-- Modelled from the spec: `GetCacheFromDB` reads one stored part from
the SQL backend; a part that was never flushed reads back empty. -/
def GetCacheFromDB (s : BSState) (blockId name : String) (cacheNum : Nat) : List Nat :=
  match findEnt s.db (blockId, name) with
  | none => []
  | some f => (findPart f.parts cacheNum).getD []

/-- Pad a block array with `nil`s up to length `n`
(`for index := len(DataBlocks); index < cacheNum+1; index++ { append nil }`). -/
def padBlocks (blocks : List (Option CacheBlock)) (n : Nat) : List (Option CacheBlock) :=
  blocks ++ List.replicate (n - blocks.length) none

/-- Outcome of a state-threading blockstore call: Go's
`(value, error)` pair plus the state, with `panic` for runtime panics. -/
inductive Res (α : Type) where
  | ok (s : BSState) (v : α)
  | err (s : BSState) (msg : String)
  | panic
deriving Repr

/-- `GetCacheBlock`.  The returned block is also stored in the entry's
`DataBlocks` (the Go code returns a pointer into that array).  A
negative `cacheNum` would index the array out of range in Go: `panic`. -/
def GetCacheBlock (s : BSState) (blockId name : String) (cacheNum : Int)
    (pullFromDB : Bool) : Res CacheBlock :=
  match GetCacheEntryOrPopulate s blockId name with
  | (s1, .error e) => .err s1 e
  | (s1, .ok entry) =>
    if cacheNum < 0 then .panic
    else
      let cn := cacheNum.toNat
      let blocks := padBlocks entry.DataBlocks (cn + 1)
      match blocks.getD cn none with
      | some blk =>
        let s2 := { s1 with
          cache := mapEnt s1.cache (blockId, name) (fun e => { e with DataBlocks := blocks }) }
        .ok s2 blk
      | none =>
        let data := if pullFromDB then GetCacheFromDB s1 blockId name cn else []
        let blk : CacheBlock := { data := data, size := (data.length : Int), dirty := false }
        let s2 := { s1 with
          cache := mapEnt s1.cache (blockId, name)
            (fun e => { e with DataBlocks := blocks.set cn (some blk) }) }
        .ok s2 blk

/-- Store a block back into an entry's `DataBlocks` slot (Go mutates the
block through the pointer returned by `GetCacheBlock`). -/
def putBlock (s : BSState) (key : String × String) (cacheNum : Nat) (blk : CacheBlock) :
    BSState :=
  { s with cache :=
      mapEnt s.cache key (fun e => { e with DataBlocks := e.DataBlocks.set cacheNum (some blk) }) }

/-- Mutate the cached `FileInfo` of an entry in place. -/
def mapInfo (s : BSState) (key : String × String) (f : FileInfo → FileInfo) : BSState :=
  { s with cache := mapEnt s.cache key (fun e => { e with Info := f e.Info }) }

/-- Mutate the refcount of an entry in place (`IncRefs`/`DecRefs`). -/
def mapRefs (s : BSState) (key : String × String) (d : Int) : BSState :=
  { s with cache := mapEnt s.cache key (fun e => { e with Refs := e.Refs + d }) }

/-! ## Blockstore: `WriteToCacheBlockNum` and `WriteAt` -/

/-- `WriteToCacheBlockNum(ctx, blockId, name, p, pos, length, cacheNum,
pullFromDB) (int64, int, error)`: returns `(numLeftPad, bytesWritten,
err)`.  On the left-pad error return the refcount stays incremented
and the block is not marked dirty, exactly as in the source. -/
def WriteToCacheBlockNum (s : BSState) (blockId name : String) (p : List Nat)
    (pos length cacheNum : Int) (pullFromDB : Bool) : Res (Int × Int × Option BSError) :=
  match GetCacheEntryOrPopulate s blockId name with
  | (s1, .error e) => .ok s1 (0, 0, some (.other e))
  | (s1, .ok _) =>
    let key := (blockId, name)
    let s2 := mapRefs s1 key 1
    match GetCacheBlock s2 blockId name cacheNum pullFromDB with
    | .panic => .panic
    | .err s3 msg => .ok s3 (0, 0, some (.other ("error getting cache block: " ++ msg)))
    | .ok s3 block =>
      match findEnt s3.cache key with
      | none => .panic
      | some entry =>
        let blockLen : Int := block.data.length
        let fileMaxSize := entry.Info.Opts.MaxSize
        let maxWriteSize := fileMaxSize - cacheNum * PartSize
        -- left padding when writing past the current end of the block
        let padRes :
            (BSState × CacheBlock × Int) ⊕ (Option (BSState × Int × Int × Option BSError)) :=
          if pos > blockLen then
            let numLeftPad := pos - blockLen
            let leftPadBytes := List.replicate numLeftPad.toNat 0
            let leftPadPos := pos - numLeftPad
            match WriteToCacheBuf block.data leftPadBytes leftPadPos numLeftPad maxWriteSize with
            | .panic => .inr none
            | .ok data1 b e =>
              let block1 := { block with data := data1 }
              if e.isSome then
                -- `return int64(b), b, err`: the grown buffer stays in the block
                .inr (some (putBlock s3 key cacheNum.toNat block1, b, b, e))
              else
                let s4 := putBlock s3 key cacheNum.toNat block1
                let s5 := mapInfo s4 key (fun i => { i with Size := i.Size + cacheNum * PartSize })
                .inl (s5, block1, b)
          else .inl (s3, block, 0)
        match padRes with
        | .inr none => .panic
        | .inr (some r) => .ok r.1 (r.2.1, r.2.2.1, r.2.2.2)
        | .inl (s5, block1, numLeftPad) =>
          match WriteToCacheBuf block1.data p pos length maxWriteSize with
          | .panic => .panic
          | .ok data2 b writeErr =>
            let blockLenDiff : Int := (data2.length : Int) - blockLen
            let block2 : CacheBlock := { data := data2, size := (data2.length : Int), dirty := true }
            let s6 := putBlock s5 key cacheNum.toNat block2
            let s7 := mapInfo s6 key (fun i => { i with Size := i.Size + blockLenDiff })
            let s8 := mapRefs s7 key (-1)
            .ok s8 (numLeftPad, b, writeErr)

/-- Result of `WriteAt`/`WriteAtHelper`: bytes written and error. -/
inductive WriteRes where
  | ok (s : BSState) (n : Int) (e : Option String)
  | panic
deriving Repr

/-- Result of one pass of `WriteAtHelper`'s part loop: either the loop
finished (`done`), or the circular wrap branch fired and the remaining
bytes must be re-written at offset 0 (`wrap`, carrying the already
counted bytes); in the source the recursive call sits inside the loop
and is immediately followed by `break`, so this restructuring is
semantics-preserving. -/
inductive WLoopRes where
  | done (s : BSState) (bytesWritten : Int) (e : Option String)
  | wrap (s : BSState) (p : List Nat) (bytesWritten : Int)
  | panic
deriving Repr

/-- Go slice `p[b:]`: panics when `b` is negative or beyond `len(p)`. -/
def goSliceFrom (p : List Nat) (b : Int) : Option (List Nat) :=
  if b < 0 ∨ b > (p.length : Int) then none else some (p.drop b.toNat)

/-- The `for index := curCacheNum; index < curCacheNum+numCaches; index++`
loop of `WriteAtHelper`; `k` is the remaining trip count. -/
def writeAtLoop (blockId name : String) (circular : Bool) :
    BSState → List Nat → Int → Int → Int → Int → Nat → WLoopRes
  | s, _, _, bytesWritten, _, _, 0 => .done s bytesWritten none
  | s, p, off, bytesWritten, bytesToWrite, index, k + 1 =>
    let cacheOffset := off - index * PartSize
    let bytesToWriteToCurCache := min bytesToWrite (PartSize - cacheOffset)
    let pullFromDB := ¬(cacheOffset = 0 ∧ bytesToWriteToCurCache = PartSize)
    match WriteToCacheBlockNum s blockId name p cacheOffset bytesToWriteToCurCache index pullFromDB with
    | .panic => .panic
    | .err s1 msg => .done s1 bytesWritten (some msg)
    | .ok s1 (_, b, e) =>
      let bytesWritten := bytesWritten + b
      let bytesToWrite := bytesToWrite - b
      let off := off + b
      match e with
      | some .maxSize =>
        if circular then
          match goSliceFrom p b with
          | none => .panic
          | some p1 => .wrap s1 p1 bytesWritten
        else
          -- non-circular `MaxSizeError` falls through to the length check
          if (p.length : Int) = b then .done s1 bytesWritten none
          else match goSliceFrom p b with
            | none => .panic
            | some p1 => writeAtLoop blockId name circular s1 p1 off bytesWritten bytesToWrite (index + 1) k
      | some (.other msg) => .done s1 bytesWritten (some ("write to cache error: " ++ msg))
      | none =>
        if (p.length : Int) = b then .done s1 bytesWritten none
        else match goSliceFrom p b with
          | none => .panic
          | some p1 => writeAtLoop blockId name circular s1 p1 off bytesWritten bytesToWrite (index + 1) k

/-- `WriteAtHelper`.  `fuel` bounds the recursion depth of the circular
wrap; running out of fuel (which in Go is an unbounded recursion, e.g.
for a circular file with `MaxSize = 0`) is reported as `panic`.
`math.Floor`/`math.Ceil` on exact small quotients are floor/ceiling
integer division; Go's integer `/` truncates toward zero (`Int.tdiv`),
and division by zero panics. -/
def WriteAtHelper (blockId name : String) : Nat → BSState → List Nat → Int → WriteRes
  | 0, _, _, _ => .panic
  | fuel + 1, s, p, off =>
    let bytesToWrite : Int := p.length
    let curCacheNum := Int.fdiv off PartSize
    let numCaches0 := -(Int.fdiv (-bytesToWrite) PartSize)
    let cacheOffset := off - curCacheNum * PartSize
    let numCaches := if cacheOffset + bytesToWrite > PartSize then numCaches0 + 1 else numCaches0
    match Stat s blockId name with
    | (s1, .error msg) => .ok s1 0 (some ("WriteAt err: " ++ msg))
    | (s1, .ok fInfo) =>
      if fInfo.Opts.MaxSize = 0 ∧ off > fInfo.Opts.MaxSize ∧ fInfo.Opts.Circular then .panic
      else
        let off1 :=
          if off > fInfo.Opts.MaxSize ∧ fInfo.Opts.Circular then
            off - (Int.tdiv off fInfo.Opts.MaxSize) * fInfo.Opts.MaxSize
          else off
        match writeAtLoop blockId name fInfo.Opts.Circular s1 p off1 0 bytesToWrite
            curCacheNum numCaches.toNat with
        | .panic => .panic
        | .done s2 bw e => .ok s2 bw e
        | .wrap s2 p1 bw =>
          match WriteAtHelper blockId name fuel s2 p1 0 with
          | .panic => .panic
          | .ok s3 b2 none => .ok s3 (bw + b2) none
          | .ok s3 b2 (some msg) => .ok s3 (bw + b2) (some ("write to cache error: " ++ msg))

/-- `WriteAt` delegates to `WriteAtHelper`.  The fuel `p.length + 2`
dominates the actual recursion depth whenever `MaxSize ≥ 1` (each
wrap level past the first consumes at least one byte of `p`). -/
def WriteAt (s : BSState) (blockId name : String) (p : List Nat) (off : Int) : WriteRes :=
  WriteAtHelper blockId name (p.length + 2) s p off

/-! ## Blockstore: `ReadFromCacheBlock` and `ReadAt` -/

/-- Result of the `ReadFromCacheBlock` byte loop: an early `return`, or
normal loop completion (followed by the post-loop `maxRead` check), or
the recovered-panic path (`recover()` + `os.Exit(0)`). -/
inductive RLoopRes where
  | early (p : List Nat) (n : Int) (e : Option BSError)
  | complete (p : List Nat) (bw : Int)
  | exit
deriving Repr

/-- The `for ; index < length+pos; index++` loop of
`ReadFromCacheBlock` (`index = pos + j`, `fuel` the remaining trips). -/
def readBlockLoop (data : List Nat) (pos maxRead destOffset : Int) :
    List Nat → Int → Nat → Nat → RLoopRes
  | p, bw, _, 0 => .complete p bw
  | p, bw, j, fuel + 1 =>
    let index := pos + (j : Int)
    if index ≥ maxRead then .early p (j : Int) (some .maxSize)
    else if index ≥ (data.length : Int) then .early p bw none
    else
      let destIndex := (j : Int) + destOffset
      if destIndex ≥ (p.length : Int) then .early p bw none
      else if index < 0 ∨ destIndex < 0 then .exit
      else
        let p1 := p.set destIndex.toNat (data.getD index.toNat 0)
        readBlockLoop data pos maxRead destOffset p1 (bw + 1) (j + 1) fuel

/-- `ReadFromCacheBlock`.  Returns `none` for the recovered-panic path
(the deferred `recover` logs and calls `os.Exit(0)`). -/
def ReadFromCacheBlock (data p : List Nat) (pos length destOffset maxRead : Int) :
    Option (List Nat × Int × Option BSError) :=
  if pos > (data.length : Int) then
    some (p, 0, some (.other "reading past end of cache block, should never happen"))
  else
    match readBlockLoop data pos maxRead destOffset p 0 0 length.toNat with
    | .exit => none
    | .early p1 n e => some (p1, n, e)
    | .complete p1 bw =>
      -- after the loop `index = pos + max(length, 0)`
      if pos + (length.toNat : Int) ≥ maxRead then some (p1, bw, some .maxSize)
      else some (p1, bw, none)

/-- Result of `ReadAt`: final destination buffer contents, bytes read,
and error. -/
inductive ReadRes where
  | ok (s : BSState) (dest : List Nat) (n : Int) (e : Option String)
  | panic
deriving Repr

/-- Result of one pass of `ReadAt`'s part loop (`wrap` carries the
loop-local `b` used to re-slice the destination, exactly as the source
does with `newP := (*p)[b:]`). -/
inductive RALoopRes where
  | done (s : BSState) (dest : List Nat) (bytesRead : Int) (e : Option String)
  | wrap (s : BSState) (dest : List Nat) (b : Int) (bytesRead : Int)
  | panic
deriving Repr

/-- The part loop of `ReadAt`; `fileMaxSize` is `fInfo.Opts.MaxSize`
captured before the loop, `k` the remaining trip count.  The `b == 0`
diagnostic block dereferences the cache entry, which in Go panics when
the entry is (unexpectedly) absent. -/
def readAtLoop (blockId name : String) (circular : Bool) (fileMaxSize : Int) :
    BSState → List Nat → Int → Int → Int → Int → Nat → RALoopRes
  | s, dest, _, bytesRead, _, _, 0 => .done s dest bytesRead none
  | s, dest, off, bytesRead, bytesToRead, index, k + 1 =>
    match GetCacheBlock s blockId name index true with
    | .panic => .panic
    | .err s1 msg => .done s1 dest bytesRead (some ("error getting cache block: " ++ msg))
    | .ok s1 block =>
      let cacheOffset := off - index * PartSize
      if cacheOffset < 0 then .done s1 dest bytesRead none
      else
        let bytesToReadFromCurCache := min bytesToRead (PartSize - cacheOffset)
        let maxReadSize := fileMaxSize - index * PartSize
        match ReadFromCacheBlock block.data dest cacheOffset bytesToReadFromCurCache bytesRead maxReadSize with
        | none => .panic
        | some (dest1, b, e) =>
          if b = 0 ∧ (GetCacheEntry s1 blockId name).isNone then .panic
          else
            let bytesRead := bytesRead + b
            let bytesToRead := bytesToRead - b
            let off := off + b
            match e with
            | some .maxSize =>
              if circular then .wrap s1 dest1 b bytesRead
              else readAtLoop blockId name circular fileMaxSize s1 dest1 off bytesRead bytesToRead (index + 1) k
            | some (.other msg) => .done s1 dest1 bytesRead (some ("read from cache error: " ++ msg))
            | none => readAtLoop blockId name circular fileMaxSize s1 dest1 off bytesRead bytesToRead (index + 1) k

/-- `ReadAt`.  The circular-wrap recursion is fueled like
`WriteAtHelper`'s; the modular adjustment of `off` happens before the
end-of-file check, as in the source. -/
def ReadAt (blockId name : String) : Nat → BSState → List Nat → Int → ReadRes
  | 0, _, _, _ => .panic
  | fuel + 1, s, dest, off =>
    match Stat s blockId name with
    | (s1, .error msg) => .ok s1 dest 0 (some ("ReadAt err: " ++ msg))
    | (s1, .ok fInfo) =>
      if fInfo.Opts.MaxSize = 0 ∧ off > fInfo.Opts.MaxSize ∧ fInfo.Opts.Circular then .panic
      else
        let off1 :=
          if off > fInfo.Opts.MaxSize ∧ fInfo.Opts.Circular then
            off - (Int.tdiv off fInfo.Opts.MaxSize) * fInfo.Opts.MaxSize
          else off
        if off1 > fInfo.Size then
          .ok s1 dest 0 (some "ReadAt error: tried to read past the end of the file")
        else
          let endReadPos := min ((dest.length : Int) + off1) fInfo.Size
          let bytesToRead := endReadPos - off1
          let curCacheNum := Int.fdiv off1 PartSize
          let numCaches0 := -(Int.fdiv (-bytesToRead) PartSize)
          let cacheOffset := off1 - curCacheNum * PartSize
          let numCaches := if cacheOffset + bytesToRead > PartSize then numCaches0 + 1 else numCaches0
          match readAtLoop blockId name fInfo.Opts.Circular fInfo.Opts.MaxSize s1 dest off1 0
              bytesToRead curCacheNum numCaches.toNat with
          | .panic => .panic
          | .done s2 dest2 br e => .ok s2 dest2 br e
          | .wrap s2 dest2 b br =>
            match goSliceFrom dest2 b with
            | none => .panic
            | some newP =>
              match ReadAt blockId name fuel s2 newP 0 with
              | .panic => .panic
              | .ok s3 newP2 b2 e2 =>
                let destF := dest2.take b.toNat ++ newP2
                if e2.isSome then .ok s3 destF (br + b2) e2
                else .ok s3 destF (br + b2) none

/-- `ReadAt` entry point with the canonical fuel (any value ≥ 1 gives
the same result on non-wrapping paths). -/
def ReadAtCall (s : BSState) (blockId name : String) (dest : List Nat) (off : Int) : ReadRes :=
  ReadAt blockId name (dest.length + 2) s dest off

/-! ## Blockstore: `FlushCache`, `WriteMeta`, `MakeFile` -/

/-- Modelled from the spec: `WriteFileToDB` upserts the file row's
metadata in the SQL backend, leaving the stored parts alone. -/
def dbSetInfo (db : List ((String × String) × DBFileEntry)) (key : String × String)
    (info : FileInfo) : List ((String × String) × DBFileEntry) :=
  match db with
  | [] => [(key, { info := info, parts := [] })]
  | (k, v) :: rest =>
    if k = key then (k, { v with info := info }) :: rest
    else (k, v) :: dbSetInfo rest key info

/-- Modelled from the spec: `WriteDataBlockToDB` upserts one part of an
existing file row (`FlushCache` always writes the file row first). -/
def dbSetPart (db : List ((String × String) × DBFileEntry)) (key : String × String)
    (idx : Nat) (data : List Nat) : List ((String × String) × DBFileEntry) :=
  mapEnt db key (fun f => { f with parts := setPart f.parts idx data })

/-- The inner block loop of `FlushCache` for one cache entry: returns
the updated SQL backend, the updated `DataBlocks` (flushed slots are
cleared), and the final `clearEntry` flag. -/
def flushBlocks (blockId name : String) :
    List (Option CacheBlock) → Nat → List ((String × String) × DBFileEntry) → Bool →
    List ((String × String) × DBFileEntry) × List (Option CacheBlock) × Bool
  | [], _, db, clear => (db, [], clear)
  | none :: rest, idx, db, clear =>
    let r := flushBlocks blockId name rest (idx + 1) db clear
    (r.1, none :: r.2.1, r.2.2)
  | some blk :: rest, idx, db, clear =>
    if blk.size = 0 then
      let r := flushBlocks blockId name rest (idx + 1) db clear
      (r.1, some blk :: r.2.1, r.2.2)
    else if ¬blk.dirty then
      let r := flushBlocks blockId name rest (idx + 1) db false
      (r.1, some blk :: r.2.1, r.2.2)
    else
      let db1 := dbSetPart db (blockId, name) idx blk.data
      let r := flushBlocks blockId name rest (idx + 1) db1 clear
      (r.1, none :: r.2.1, r.2.2)

/-- The entry loop of `FlushCache` (modelled DB writes always succeed,
so the error return is always `nil`; Go map iteration order is
unspecified and is fixed here to list order, on which the final state
does not depend since entries touch disjoint keys). -/
def flushEntries :
    List ((String × String) × CacheEntry) → List ((String × String) × DBFileEntry) →
    List ((String × String) × CacheEntry) × List ((String × String) × DBFileEntry)
  | [], db => ([], db)
  | (key, e) :: rest, db =>
    let db1 := dbSetInfo db key e.Info
    let r := flushBlocks key.1 key.2 e.DataBlocks 0 db1 true
    let clearEntry := r.2.2
    let tail := flushEntries rest r.1
    if clearEntry ∧ e.Refs ≤ 0 then tail
    else ((key, { e with DataBlocks := r.2.1 }) :: tail.1, tail.2)

/-- `FlushCache`. -/
def FlushCache (s : BSState) : BSState :=
  let r := flushEntries s.cache s.db
  { cache := r.1, db := r.2 }

/-- `WriteMeta`: `Stat` to populate the cache entry, then replace the
cached `FileInfo.Meta`. -/
def WriteMeta (s : BSState) (blockId name : String) (meta : FileMeta) :
    BSState × Option String :=
  match Stat s blockId name with
  | (s1, .error msg) => (s1, some msg)
  | (s1, .ok _) =>
    match GetCacheEntry s1 blockId name with
    | none => (s1, some "WriteAt error: cache entry not found")
    | some _ => (mapInfo s1 (blockId, name) (fun i => { i with Meta := meta }), none)

/-- `MakeFile` (`InsertFileIntoDB` modelled from the spec: insert the
row, failing on a duplicate key). -/
def MakeFile (s : BSState) (blockId name : String) (meta : FileMeta)
    (opts : FileOptsType) (curTs : Int) : BSState × Option String :=
  if (findEnt s.db (blockId, name)).isSome then (s, some "file already exists")
  else
    let fileInfo : FileInfo :=
      { BlockId := blockId, Name := name, Size := 0, CreatedTs := curTs, ModTs := curTs,
        Opts := opts, Meta := meta }
    ({ s with db := s.db ++ [((blockId, name), { info := fileInfo, parts := [] })] }, none)

/-! ## Workspace SQL model (sstore/dbops.go, line/dbops.go, screen pkg)

SQL tables are lists of row structures in insertion order: `INSERT`
appends, `DELETE FROM … WHERE` filters, `UPDATE … WHERE` maps.  A
transaction body returns `Except String`; the `WithTx` wrapper commits
on success and rolls back (returns the original store) on error.
String constants not defined under `src/` are modelled from the spec:
share modes are `"local"`/`"web"`, update types `"line:new"`,
`"line:del"`, `"pty:pos"`, and the running-command status is
`"running"`. -/

def ShareModeWeb : String := "web"
def CmdStatusRunning : String := "running"
def UpdateType_LineNew : String := "line:new"
def UpdateType_LineDel : String := "line:del"
def UpdateType_PtyPos : String := "pty:pos"

/-- `MaxLineStateSize = 4 * 1024` (line/line.go). -/
def MaxLineStateSize : Int := 4 * 1024

/-- A `session` row (fields the embedded operations touch). -/
structure SessionRow where
  SessionId : String
  Name : String
  ActiveScreenId : String
  Archived : Bool
deriving Repr, DecidableEq

/-- A `screen` row (fields the embedded operations touch). -/
structure ScreenRow where
  ScreenId : String
  SessionId : String
  Name : String
  ScreenIdx : Int
  ShareMode : String
  Archived : Bool
  ArchivedTs : Int
  NextLineNum : Int
deriving Repr, DecidableEq

/-- A `line` row.  `LineState` is the JSON-encoded line-state map (the
size check applies to its encoding, so the encoded string is what the
model carries). -/
structure LineRow where
  ScreenId : String
  UserId : String
  LineId : String
  Ts : Int
  LineNum : Int
  LineType : String
  LineState : String
  Text : String
  Archived : Bool
deriving Repr, DecidableEq

/-- A `cmd` row (fields the embedded operations touch). -/
structure CmdRow where
  ScreenId : String
  LineId : String
  CmdStr : String
  Status : String
  TermOpts : String
  OrigTermOpts : String
deriving Repr, DecidableEq

/-- A `history` row (fields the embedded operations touch). -/
structure HistoryRow where
  ScreenId : String
  LineId : String
  LineNum : Int
deriving Repr, DecidableEq

/-- A `screenupdate` row (`updateid` is the autoincrement key). -/
structure ScreenUpdateRow where
  UpdateId : Int
  ScreenId : String
  LineId : String
  UpdateType : String
  UpdateTs : Int
deriving Repr, DecidableEq

/-- A `state_base` row. -/
structure StateBaseRow where
  BaseHash : String
  Ts : Int
  Version : String
  Data : String
deriving Repr, DecidableEq

/-- A `state_diff` row. -/
structure StateDiffRow where
  DiffHash : String
  Ts : Int
  BaseHash : String
  DiffHashArr : List String
  Data : String
deriving Repr, DecidableEq

/-- The relational store (the tables the claims touch) plus the
autoincrement counter for `screenupdate`. -/
structure WDB where
  session : List SessionRow
  screen : List ScreenRow
  line : List LineRow
  cmd : List CmdRow
  history : List HistoryRow
  screenupdate : List ScreenUpdateRow
  nextUpdateId : Int
  state_base : List StateBaseRow
  state_diff : List StateDiffRow
deriving Repr, DecidableEq

/-- `IsWebShare(tx, screenId)`:
`SELECT screenid FROM screen WHERE screenid = ? AND sharemode = ?`. -/
def IsWebShare (db : WDB) (screenId : String) : Bool :=
  db.screen.any (fun r => r.ScreenId = screenId ∧ r.ShareMode = ShareModeWeb)

/-- `InsertScreenLineUpdate` (a transaction fragment; `tx.SetErr` on
empty ids aborts the enclosing transaction).  `NotifyUpdateWriter` only
signals a condition variable and has no store effect.  Both
`time.Now()` reads are modelled by the single ambient `ts`. -/
def InsertScreenLineUpdate (db : WDB) (screenId lineId updateType : String) (ts : Int) :
    Except String WDB :=
  if screenId = "" then .error "invalid screen-update, screenid is empty"
  else if lineId = "" then .error "invalid screen-update, lineid is empty"
  else
    let db1 :=
      if updateType = UpdateType_LineNew ∨ updateType = UpdateType_LineDel then
        { db with screenupdate :=
            db.screenupdate.filter (fun r => ¬(r.ScreenId = screenId ∧ r.LineId = lineId)) }
      else db
    let row1 : ScreenUpdateRow :=
      { UpdateId := db1.nextUpdateId, ScreenId := screenId, LineId := lineId,
        UpdateType := updateType, UpdateTs := ts }
    let db2 := { db1 with screenupdate := db1.screenupdate ++ [row1], nextUpdateId := db1.nextUpdateId + 1 }
    if updateType = UpdateType_LineNew then
      let row2 : ScreenUpdateRow :=
        { UpdateId := db2.nextUpdateId, ScreenId := screenId, LineId := lineId,
          UpdateType := UpdateType_PtyPos, UpdateTs := ts }
      .ok { db2 with screenupdate := db2.screenupdate ++ [row2], nextUpdateId := db2.nextUpdateId + 1 }
    else .ok db2

/-- `SELECT nextlinenum FROM screen WHERE screenid = ?` (`tx.GetInt`:
first matching row, `0` when none). -/
def getNextLineNum (db : WDB) (screenId : String) : Int :=
  match db.screen.find? (fun r => r.ScreenId = screenId) with
  | some r => r.NextLineNum
  | none => 0

/-- The `cmd != nil && cmd.ScreenId == ""` validation of `InsertLine`. -/
def cmdMissingScreenId : Option CmdRow → Bool
  | some c => c.ScreenId = ""
  | none => false

/-- `InsertLine(ctx, line, cmd)` with the `WithTx` wrapper: returns the
committed (or rolled-back) store and the error. -/
def InsertLine (db : WDB) (line : LineRow) (cmd : Option CmdRow) : WDB × Option String :=
  if line.LineId = "" then (db, some "line must have lineid set")
  else if ¬(line.LineNum = 0) then (db, some "line should not hage linenum set")
  else if cmdMissingScreenId cmd then (db, some "cmd should have screenid set")
  else if (line.LineState.length : Int) > MaxLineStateSize then
    (db, some "linestate exceeds maxsize")
  else if ¬db.screen.any (fun r => r.ScreenId = line.ScreenId) then
    (db, some "screen not found, cannot insert line")
  else
    let nextLineNum := getNextLineNum db line.ScreenId
    let line1 := { line with LineNum := nextLineNum }
    let db1 := { db with line := db.line ++ [line1] }
    let db2 :=
      { db1 with screen :=
          db1.screen.map (fun r =>
            if r.ScreenId = line.ScreenId then { r with NextLineNum := nextLineNum + 1 } else r) }
    let db3 :=
      match cmd with
      | none => db2
      | some c => { db2 with cmd := db2.cmd ++ [{ c with OrigTermOpts := c.TermOpts }] }
    if IsWebShare db3 line.ScreenId then
      match InsertScreenLineUpdate db3 line.ScreenId line.LineId UpdateType_LineNew 0 with
      | .ok db4 => (db4, none)
      | .error e => (db, some e)
    else (db3, none)

/-- The per-line body of `DeleteLinesByIds`' loop. -/
def deleteLinesLoop (screenId : String) (isWS : Bool) :
    WDB → List String → Except String WDB
  | db, [] => .ok db
  | db, lineId :: rest =>
    let cmdStatus :=
      match db.cmd.find? (fun r => r.ScreenId = screenId ∧ r.LineId = lineId) with
      | some r => r.Status
      | none => ""
    if cmdStatus = CmdStatusRunning then .error "cannot delete line, cmd is running"
    else
      let db1 := { db with
        line := db.line.filter (fun r => ¬(r.ScreenId = screenId ∧ r.LineId = lineId)),
        cmd := db.cmd.filter (fun r => ¬(r.ScreenId = screenId ∧ r.LineId = lineId)),
        history := db.history.map (fun r =>
          if r.ScreenId = screenId ∧ r.LineId = lineId then
            { r with LineId := "", LineNum := 0 } else r) }
      if isWS then
        match InsertScreenLineUpdate db1 screenId lineId UpdateType_LineDel 0 with
        | .ok db2 => deleteLinesLoop screenId isWS db2 rest
        | .error e => .error e
      else deleteLinesLoop screenId isWS db1 rest

/-- `DeleteLinesByIds` with the `WithTx` wrapper. -/
def DeleteLinesByIds (db : WDB) (screenId : String) (lineIds : List String) :
    WDB × Option String :=
  match deleteLinesLoop screenId (IsWebShare db screenId) db lineIds with
  | .ok db1 => (db1, none)
  | .error e => (db, some e)

/-- The input of `StoreStateDiff`, a `packet.ShellStateDiff` together
with its content hash: `EncodeAndHash` lives outside `src/` and is
modelled from the spec ("its 64-bit content hash is deterministic") by
carrying the resulting `DiffHash`/`Data` as given values. -/
structure ShellStateDiffIn where
  BaseHash : String
  DiffHashArr : List String
  DiffHash : String
  Data : String
deriving Repr, DecidableEq

/-- The `for idx, diffHash := range stateDiff.DiffHashArr` existence
loop of `StoreStateDiff`. -/
def checkDiffHashes (db : WDB) : List String → Except String Unit
  | [] => .ok ()
  | h :: rest =>
    if db.state_diff.any (fun r => r.DiffHash = h) then checkDiffHashes db rest
    else .error "cannot store statediff, diffhash does not exist"

/-- `StoreStateDiff` with the `WithTx` wrapper. -/
def StoreStateDiff (db : WDB) (diff : ShellStateDiffIn) (ts : Int) : WDB × Option String :=
  if diff.BaseHash = "" ∨ ¬db.state_base.any (fun r => r.BaseHash = diff.BaseHash) then
    (db, some "cannot store statediff, basehash does not exist")
  else
    match checkDiffHashes db diff.DiffHashArr with
    | .error e => (db, some e)
    | .ok _ =>
      if db.state_diff.any (fun r => r.DiffHash = diff.DiffHash) then (db, none)
      else
        let row : StateDiffRow :=
          { DiffHash := diff.DiffHash, Ts := ts, BaseHash := diff.BaseHash,
            DiffHashArr := diff.DiffHashArr, Data := diff.Data }
        ({ db with state_diff := db.state_diff ++ [row] }, none)

/-- Modelled from the spec: `getNextId` (not under `src/`) picks the
screen the session advances to — "if archiving the active screen,
advances to the next by ordering"; the archived id itself is no longer
in the list, so this is the first remaining id, `""` when none. -/
def getNextId (ids : List String) (delId : String) : String :=
  match ids.filter (fun x => ¬x = delId) with
  | [] => ""
  | x :: _ => x

/-- `SELECT screenid FROM screen WHERE sessionid = ? AND NOT archived
ORDER BY screenidx` (stable sort on `screenidx`). -/
def orderedScreenIds (db : WDB) (sessionId : String) : List String :=
  ((db.screen.filter (fun r => r.SessionId = sessionId ∧ ¬r.Archived)).mergeSort
    (fun a b => a.ScreenIdx ≤ b.ScreenIdx)).map (·.ScreenId)

/-- Number of non-archived screens of a session
(`SELECT count(*) FROM screen WHERE sessionid = ? AND NOT archived`). -/
def numNonArchived (db : WDB) (sessionId : String) : Nat :=
  (db.screen.filter (fun r => r.SessionId = sessionId ∧ ¬r.Archived)).length

/-- `ArchiveScreen` (screen package, part of the workspace mutator),
with the `WithTx` wrapper and the post-transaction reads that build the
update packet (whose contents the model discards).  `isWebShare` in the
screen package matches `sstore.IsWebShare`. -/
def ArchiveScreen (db : WDB) (sessionId screenId : String) (ts : Int) : WDB × Option String :=
  if ¬db.screen.any (fun r => r.SessionId = sessionId ∧ r.ScreenId = screenId) then
    (db, some "cannot close screen (not found)")
  else if IsWebShare db screenId then
    (db, some "cannot archive screen while web-sharing.  stop web-sharing before trying to archive.")
  else
    let closeVal :=
      match db.screen.find? (fun r => r.SessionId = sessionId ∧ r.ScreenId = screenId) with
      | some r => r.Archived
      | none => false
    if closeVal then (db, none)
    else if numNonArchived db sessionId ≤ 1 then
      (db, some "cannot archive the last screen in a session")
    else
      let db1 :=
        { db with screen :=
            db.screen.map (fun (r : ScreenRow) =>
              if r.SessionId = sessionId ∧ r.ScreenId = screenId then
                { r with Archived := true, ArchivedTs := ts, ScreenIdx := 0 } else r) }
      let isActive :=
        db1.session.any (fun r => r.SessionId = sessionId ∧ r.ActiveScreenId = screenId)
      let db2 :=
        if isActive then
          let nextId := getNextId (orderedScreenIds db1 sessionId) screenId
          { db1 with session :=
              db1.session.map (fun (r : SessionRow) =>
                if r.SessionId = sessionId then { r with ActiveScreenId := nextId } else r) }
        else db1
      -- post-tx: `GetScreenById` (and `GetBareSessionById` when active);
      -- a missing row would make Go dereference nil — unreachable here
      -- since the screen was found above and only updated in place
      (db2, none)

/-! ## Supporting lemmas -/

/-! ## Supporting lemmas -/


/-- A small store used by several witnesses. -/
def emptyWDB : WDB :=
  { session := [], screen := [], line := [], cmd := [], history := [],
    screenupdate := [], nextUpdateId := 1, state_base := [], state_diff := [] }

/-- First intermediate store of the C6 witness. -/
def c6db1 : WDB :=
  { emptyWDB with
    screenupdate :=
      [{ UpdateId := 1, ScreenId := "s", LineId := "l", UpdateType := UpdateType_LineNew, UpdateTs := 5 },
       { UpdateId := 2, ScreenId := "s", LineId := "l", UpdateType := UpdateType_PtyPos, UpdateTs := 5 }],
    nextUpdateId := 3 }

/-- Second intermediate store of the C6 witness. -/
def c6db2 : WDB :=
  { emptyWDB with
    screenupdate :=
      [{ UpdateId := 3, ScreenId := "s", LineId := "l", UpdateType := UpdateType_LineDel, UpdateTs := 6 }],
    nextUpdateId := 4 }

/-- The archiving map applied to the `screen` table by a successful
`ArchiveScreen sid scid` call. -/
def archMap (sid scid : String) (ts : Int) (r : ScreenRow) : ScreenRow :=
  if r.SessionId = sid ∧ r.ScreenId = scid then
    { r with Archived := true, ArchivedTs := ts, ScreenIdx := 0 } else r

/-- `ScreenId` uniqueness hypothesis used by the archive invariant (the
`screen` table's primary key). -/
def ScreenIdsNodup (db : WDB) : Prop := (db.screen.map (·.ScreenId)).Nodup

/-- The state used by the C10 witness: a fresh file in the SQL backend,
not yet cached. -/
def c10state : BSState :=
  (MakeFile { cache := [], db := [] } "b" "f" []
    { MaxSize := 100, Circular := false, IJson := false } 0).1

/-- Bytes-written count and error of a `WriteRes` (`none` for a Go
panic). -/
def WriteRes.countOf : WriteRes → Option (Int × Option String)
  | .ok _ n e => some (n, e)
  | .panic => none

/-- Destination buffer, byte count and error of a `ReadRes` (`none`
for a Go panic). -/
def ReadRes.view : ReadRes → Option (List Nat × Int × Option String)
  | .ok _ d n e => some (d, n, e)
  | .panic => none

/-- A sequence of `WriteAt` calls at contiguous offsets (the write side
of the round-trip property); `none` when some call panics. -/
def writeChunks (blockId name : String) : BSState → List (List Nat) → Int → Option BSState
  | s, [], _ => some s
  | s, c :: rest, off =>
    match WriteAt s blockId name c off with
    | .ok s1 _ _ => writeChunks blockId name s1 rest (off + c.length)
    | .panic => none

/-- A fresh file with `MaxSize = 0` (the spec's "unbounded" setting). -/
def fileMaxSize0 : BSState :=
  (MakeFile { cache := [], db := [] } "b" "f" []
    { MaxSize := 0, Circular := false, IJson := false } 0).1

/-- A fresh circular file with `MaxSize = 10`. -/
def fileCircular10 : BSState :=
  (MakeFile { cache := [], db := [] } "b" "f" []
    { MaxSize := 10, Circular := true, IJson := false } 0).1

/-- A fresh non-circular file with `MaxSize = 100` (current size 0). -/
def fileMaxSize100 : BSState :=
  (MakeFile { cache := [], db := [] } "b" "f" []
    { MaxSize := 100, Circular := false, IJson := false } 0).1

/-- An interleaving of the two line mutators. -/
inductive LineOp where
  | ins (line : LineRow) (cmd : Option CmdRow)
  | del (screenId : String) (lineIds : List String)

/-- Apply one mutator call (the committed store; a failed transaction
leaves the store unchanged). -/
def applyLineOp (db : WDB) : LineOp → WDB
  | .ins l c => (InsertLine db l c).1
  | .del sid ids => (DeleteLinesByIds db sid ids).1

/-- Run a sequence of mutator calls. -/
def runLineOps : WDB → List LineOp → WDB
  | db, [] => db
  | db, op :: rest => runLineOps (applyLineOp db op) rest

/-- The line numbers assigned (to screen `sid`) by the successful
`InsertLine` calls of a run, in call order. -/
def assignedNums (sid : String) : WDB → List LineOp → List Int
  | _, [] => []
  | db, op :: rest =>
    (match op with
     | .ins l c =>
       if l.ScreenId = sid ∧ (InsertLine db l c).2 = none then [getNextLineNum db sid] else []
     | .del _ _ => []) ++ assignedNums sid (applyLineOp db op) rest

/-- The lines of one screen, in table order. -/
def screenLines (db : WDB) (sid : String) : List LineRow :=
  db.line.filter (fun r => r.ScreenId = sid)

/-- The line-number invariant: a screen's lines have strictly
increasing numbers (in table order) and all of them are below the
screen's `nextlinenum`. -/
def LineNumInv (db : WDB) (sid : String) : Prop :=
  List.Pairwise (fun a b => a.LineNum < b.LineNum) (screenLines db sid) ∧
  ∀ r ∈ screenLines db sid, r.LineNum < getNextLineNum db sid

/-- The initial store of the C4 witness: one fresh screen with
`nextlinenum = 1` and no lines. -/
def c4db : WDB :=
  { emptyWDB with
    screen := [{ ScreenId := "sc", SessionId := "se", Name := "s1", ScreenIdx := 1,
                 ShareMode := "local", Archived := false, ArchivedTs := 0, NextLineNum := 1 }] }

/-- A minimal text line for the C4 witness. -/
def c4line (id : String) : LineRow :=
  { ScreenId := "sc", UserId := "", LineId := id, Ts := 0, LineNum := 0,
    LineType := "text", LineState := "", Text := "", Archived := false }

/-- The op sequence of the C4 witness: three inserts, a delete of the
middle line, then another insert. -/
def c4ops : List LineOp :=
  [.ins (c4line "a") none, .ins (c4line "b") none, .ins (c4line "c") none,
   .del "sc" ["b"], .ins (c4line "d") none]

/-- The `FileInfo` of the fresh `fileMaxSize100` file. -/
def c8info : FileInfo :=
  { BlockId := "b", Name := "f", Size := 0, CreatedTs := 0, ModTs := 0,
    Opts := { MaxSize := 100, Circular := false, IJson := false }, Meta := [] }

/-- `fileMaxSize100` after `Stat` has populated its cache entry. -/
def c8state : BSState :=
  { fileMaxSize100 with
    cache := [(("b", "f"), { CacheTs := 0, Info := c8info, DataBlocks := [], Refs := 0 })] }

/-- The store holding just the file freshly created by `MakeFile`
(non-circular, `MaxSize = M`). -/
def c1s0 (bid name : String) (meta : FileMeta) (M ts : Int) : BSState :=
  (MakeFile { cache := [], db := [] } bid name meta
    { MaxSize := M, Circular := false, IJson := false } ts).1

/-- The cached `FileInfo` of that file once its size is `n`. -/
def c1info (bid name : String) (meta : FileMeta) (M ts n : Int) : FileInfo :=
  { BlockId := bid, Name := name, Size := n, CreatedTs := ts, ModTs := ts,
    Opts := { MaxSize := M, Circular := false, IJson := false }, Meta := meta }

/-- The store after the byte prefix `pref` has been written through
`WriteAt` (dirty cache entry, nothing flushed yet). -/
def c1after (bid name : String) (meta : FileMeta) (M ts : Int) (pref : List Nat) : BSState :=
  { cache := [((bid, name),
      { CacheTs := 0, Info := c1info bid name meta M ts pref.length,
        DataBlocks :=
          if pref.length = 0 then []
          else [some { data := pref, size := (pref.length : Int), dirty := true }],
        Refs := 0 })],
    db := [((bid, name), { info := c1info bid name meta M ts 0, parts := [] })] }

/-- The store after `FlushCache` has written `pref` back to the SQL
backend and dropped the cache entry. -/
def c1flushed (bid name : String) (meta : FileMeta) (M ts : Int) (pref : List Nat) : BSState :=
  { cache := [],
    db := [((bid, name),
      { info := c1info bid name meta M ts pref.length,
        parts := if pref.length = 0 then [] else [(0, pref)] })] }

/-- `c1flushed` after `Stat` has repopulated the cache entry. -/
def c1readStart (bid name : String) (meta : FileMeta) (M ts : Int) (pref : List Nat) :
    BSState :=
  { cache := [((bid, name),
      { CacheTs := 0, Info := c1info bid name meta M ts pref.length,
        DataBlocks := [], Refs := 0 })],
    db := (c1flushed bid name meta M ts pref).db }

/-- `c1readStart` after `GetCacheBlock` has pulled part 0 back from the
SQL backend. -/
def c1readDone (bid name : String) (meta : FileMeta) (M ts : Int) (pref : List Nat) :
    BSState :=
  { cache := [((bid, name),
      { CacheTs := 0, Info := c1info bid name meta M ts pref.length,
        DataBlocks := [some { data := pref, size := (pref.length : Int), dirty := false }],
        Refs := 0 })],
    db := (c1flushed bid name meta M ts pref).db }

theorem findEnt_mapEnt {α : Type} (l : List ((String × String) × α)) (key k : String × String)
    (f : α → α) :
    findEnt (mapEnt l key f) k =
      if k = key then (findEnt l key).map f else findEnt l k := by
  induction l with
  | nil => by_cases h : k = key <;> simp [findEnt, mapEnt, h]
  | cons hd tl ih =>
    obtain ⟨k0, v0⟩ := hd
    by_cases h0 : k0 = key
    · subst h0
      by_cases h1 : k = k0
      · subst h1
        simp [findEnt, mapEnt]
      · simp [findEnt, mapEnt, h1, Ne.symm h1]
    · by_cases h1 : k0 = k
      · subst h1
        simp [findEnt, mapEnt, h0, Ne.symm h0]
      · simp [findEnt, mapEnt, h0, h1, ih]

theorem findEnt_append_other {α : Type} (l : List ((String × String) × α))
    (key k : String × String) (e : α) (h : k ≠ key) :
    findEnt (l ++ [(key, e)]) k = findEnt l k := by
  induction l with
  | nil => simp [findEnt, Ne.symm h]
  | cons hd tl ih =>
    obtain ⟨k0, v0⟩ := hd
    by_cases h0 : k0 = k <;> simp [findEnt, h0, ih]

theorem findEnt_append_self {α : Type} (l : List ((String × String) × α))
    (key : String × String) (e : α) (h : findEnt l key = none) :
    findEnt (l ++ [(key, e)]) key = some e := by
  induction l with
  | nil => simp [findEnt]
  | cons hd tl ih =>
    obtain ⟨k0, v0⟩ := hd
    by_cases h0 : k0 = key
    · simp [findEnt, h0] at h
    · simp [findEnt, h0] at h ⊢
      exact ih h

/-! ## Claim C5: `StoreStateDiff` error and idempotence behaviour -/

theorem checkDiffHashes_ok_iff (db : WDB) (hs : List String) :
    checkDiffHashes db hs = .ok () ↔
      ∀ h ∈ hs, ∃ r ∈ db.state_diff, r.DiffHash = h := by
  induction hs with
  | nil => simp [checkDiffHashes]
  | cons h0 rest ih =>
    by_cases hx : db.state_diff.any (fun r => r.DiffHash = h0)
    · have hex : ∃ r ∈ db.state_diff, r.DiffHash = h0 := by
        simpa using hx
      simp [checkDiffHashes, hx, ih, hex]
    · have hnex : ¬∃ r ∈ db.state_diff, r.DiffHash = h0 := by
        simpa using hx
      simp [checkDiffHashes, hx, hnex]

theorem checkDiffHashes_not_ok (db : WDB) (hs : List String)
    (h : ¬checkDiffHashes db hs = .ok ()) :
    ∃ e, checkDiffHashes db hs = .error e := by
  cases hc : checkDiffHashes db hs with
  | ok u => cases u; exact absurd hc h
  | error e => exact ⟨e, rfl⟩

/-- C5.  `StoreStateDiff` returns an error exactly when the diff's
`basehash` is empty or absent from `state_base`, or some predecessor
hash in `DiffHashArr` is absent from `state_diff`; on success it
appends the diff row when its own hash is new and leaves the store
unchanged when the hash is already present; on error the store is
also unchanged (transaction rollback). -/
theorem store_state_diff_spec (db : WDB) (diff : ShellStateDiffIn) (ts : Int) :
    ((StoreStateDiff db diff ts).2.isSome ↔
      (diff.BaseHash = "" ∨ ¬(∃ r ∈ db.state_base, r.BaseHash = diff.BaseHash) ∨
        ∃ h ∈ diff.DiffHashArr, ¬∃ r ∈ db.state_diff, r.DiffHash = h)) ∧
    ((StoreStateDiff db diff ts).2.isSome → (StoreStateDiff db diff ts).1 = db) ∧
    ((StoreStateDiff db diff ts).2 = none →
      ((∃ r ∈ db.state_diff, r.DiffHash = diff.DiffHash) →
        (StoreStateDiff db diff ts).1 = db) ∧
      (¬(∃ r ∈ db.state_diff, r.DiffHash = diff.DiffHash) →
        (StoreStateDiff db diff ts).1 =
          { db with state_diff := db.state_diff ++
              [{ DiffHash := diff.DiffHash, Ts := ts, BaseHash := diff.BaseHash,
                 DiffHashArr := diff.DiffHashArr, Data := diff.Data }] })) := by
  by_cases hbase : diff.BaseHash = "" ∨ ¬db.state_base.any (fun r => r.BaseHash = diff.BaseHash)
  · have hbase2 : diff.BaseHash = "" ∨ ¬(∃ r ∈ db.state_base, r.BaseHash = diff.BaseHash) := by
      rcases hbase with h | h
      · exact Or.inl h
      · exact Or.inr (by simpa using h)
    unfold StoreStateDiff
    rw [if_pos hbase]
    refine ⟨?_, ?_, ?_⟩
    · constructor
      · intro _
        exact hbase2.elim Or.inl (fun h => Or.inr (Or.inl h))
      · intro _
        simp
    · intro _
      trivial
    · intro hnone
      simp at hnone
  · have hb12 := hbase
    push_neg at hb12
    obtain ⟨hb1, hb2⟩ := hb12
    have hbex : ∃ r ∈ db.state_base, r.BaseHash = diff.BaseHash := by simpa using hb2
    unfold StoreStateDiff
    rw [if_neg hbase]
    by_cases hchk : checkDiffHashes db diff.DiffHashArr = .ok ()
    · have hall : ∀ h ∈ diff.DiffHashArr, ∃ r ∈ db.state_diff, r.DiffHash = h :=
        (checkDiffHashes_ok_iff db diff.DiffHashArr).mp hchk
      rw [hchk]
      by_cases hown : db.state_diff.any (fun r => r.DiffHash = diff.DiffHash)
      · have hown2 : ∃ r ∈ db.state_diff, r.DiffHash = diff.DiffHash := by simpa using hown
        simp only [if_pos hown]
        refine ⟨?_, ?_, ?_⟩
        · simp only [Option.isSome_none, Bool.false_eq_true, false_iff]
          push_neg
          refine ⟨hb1, ⟨hbex, ?_⟩⟩
          intro h hmem
          simpa using hall h hmem
        · intro hcon
          simp at hcon
        · intro _
          exact ⟨fun _ => by trivial, fun hc => absurd hown2 hc⟩
      · have hown2 : ¬∃ r ∈ db.state_diff, r.DiffHash = diff.DiffHash := by simpa using hown
        simp only [if_neg hown]
        refine ⟨?_, ?_, ?_⟩
        · simp only [Option.isSome_none, Bool.false_eq_true, false_iff]
          push_neg
          refine ⟨hb1, ⟨hbex, ?_⟩⟩
          intro h hmem
          simpa using hall h hmem
        · intro hcon
          simp at hcon
        · intro _
          exact ⟨fun hc => absurd hc hown2, fun _ => by trivial⟩
    · obtain ⟨e, he⟩ := checkDiffHashes_not_ok db diff.DiffHashArr hchk
      have hmiss : ∃ h ∈ diff.DiffHashArr, ¬∃ r ∈ db.state_diff, r.DiffHash = h := by
        by_contra hcon
        push_neg at hcon
        exact hchk ((checkDiffHashes_ok_iff db diff.DiffHashArr).mpr
          (by intro h hmem; exact hcon h hmem))
      rw [he]
      refine ⟨?_, fun _ => by trivial, ?_⟩
      · simp only [Option.isSome_some, true_iff]
        exact Or.inr (Or.inr hmiss)
      · intro hnone
        simp at hnone

/-- Witness for C5 at a concrete input (missing predecessor hash). -/
theorem store_state_diff_spec_witness :
    (StoreStateDiff
      { emptyWDB with state_base := [{ BaseHash := "B", Ts := 0, Version := "v", Data := "" }] }
      { BaseHash := "B", DiffHashArr := ["D1"], DiffHash := "D2", Data := "y" } 0).2.isSome ↔
      (("B" : String) = "" ∨
        ¬(∃ r ∈ ({ emptyWDB with
            state_base := [{ BaseHash := "B", Ts := 0, Version := "v", Data := "" }] } : WDB).state_base,
            r.BaseHash = ("B" : String)) ∨
        ∃ h ∈ ["D1"], ¬∃ r ∈ ({ emptyWDB with
            state_base := [{ BaseHash := "B", Ts := 0, Version := "v", Data := "" }] } : WDB).state_diff,
            r.DiffHash = h) :=
  (store_state_diff_spec
    { emptyWDB with state_base := [{ BaseHash := "B", Ts := 0, Version := "v", Data := "" }] }
    { BaseHash := "B", DiffHashArr := ["D1"], DiffHash := "D2", Data := "y" } 0).1

/-! ## Claim C6: screen-update log coalescing -/

/-- C6: inserting `line:new` and then `line:del` for the same
`(screen, line)` pair leaves exactly one `screenupdate` row for that
pair, of type `line:del`. -/
theorem insertScreenLineUpdate_lineNew_eq (db : WDB) (sid lid : String) (ts : Int)
    (hsid : sid ≠ "") (hlid : lid ≠ "") :
    InsertScreenLineUpdate db sid lid UpdateType_LineNew ts = .ok
      { db with
        screenupdate :=
          db.screenupdate.filter (fun r => ¬(r.ScreenId = sid ∧ r.LineId = lid)) ++
            [{ UpdateId := db.nextUpdateId, ScreenId := sid, LineId := lid,
               UpdateType := UpdateType_LineNew, UpdateTs := ts }] ++
            [{ UpdateId := db.nextUpdateId + 1, ScreenId := sid, LineId := lid,
               UpdateType := UpdateType_PtyPos, UpdateTs := ts }],
        nextUpdateId := db.nextUpdateId + 1 + 1 } := by
  simp only [InsertScreenLineUpdate]
  rw [if_neg hsid, if_neg hlid]
  simp

theorem insertScreenLineUpdate_lineDel_eq (db : WDB) (sid lid : String) (ts : Int)
    (hsid : sid ≠ "") (hlid : lid ≠ "") :
    InsertScreenLineUpdate db sid lid UpdateType_LineDel ts = .ok
      { db with
        screenupdate :=
          db.screenupdate.filter (fun r => ¬(r.ScreenId = sid ∧ r.LineId = lid)) ++
            [{ UpdateId := db.nextUpdateId, ScreenId := sid, LineId := lid,
               UpdateType := UpdateType_LineDel, UpdateTs := ts }],
        nextUpdateId := db.nextUpdateId + 1 } := by
  simp only [InsertScreenLineUpdate]
  rw [if_neg hsid, if_neg hlid]
  simp [UpdateType_LineDel, UpdateType_LineNew]

theorem filter_coalesced_pair_nil (sid lid : String) (l : List ScreenUpdateRow) :
    (l.filter (fun r => ¬(r.ScreenId = sid ∧ r.LineId = lid))).filter
      (fun r => r.ScreenId = sid ∧ r.LineId = lid) = [] := by
  rw [List.filter_filter]
  apply List.filter_eq_nil_iff.mpr
  intro r hr
  by_cases h : r.ScreenId = sid ∧ r.LineId = lid <;> simp [h]

/-- C6: inserting `line:new` and then `line:del` for the same
`(screen, line)` pair leaves exactly one `screenupdate` row for that
pair, of type `line:del` (the `line:new` and its implicit `pty:pos`
rows are coalesced away). -/
theorem screenupdate_coalesce_line_del (db db1 db2 : WDB) (sid lid : String) (ts1 ts2 : Int)
    (hsid : sid ≠ "") (hlid : lid ≠ "")
    (h1 : InsertScreenLineUpdate db sid lid UpdateType_LineNew ts1 = .ok db1)
    (h2 : InsertScreenLineUpdate db1 sid lid UpdateType_LineDel ts2 = .ok db2) :
    db2.screenupdate.filter (fun r => r.ScreenId = sid ∧ r.LineId = lid) =
      [{ UpdateId := db1.nextUpdateId, ScreenId := sid, LineId := lid,
         UpdateType := UpdateType_LineDel, UpdateTs := ts2 }] := by
  rw [insertScreenLineUpdate_lineNew_eq db sid lid ts1 hsid hlid] at h1
  injection h1 with h1
  subst h1
  rw [insertScreenLineUpdate_lineDel_eq _ sid lid ts2 hsid hlid] at h2
  injection h2 with h2
  subst h2
  rw [List.filter_append, filter_coalesced_pair_nil]
  simp

/-- Witness for C6 at concrete inputs. -/
theorem screenupdate_coalesce_line_del_witness :
    ("s" : String) ≠ "" ∧ ("l" : String) ≠ "" ∧
    InsertScreenLineUpdate emptyWDB "s" "l" UpdateType_LineNew 5 = .ok c6db1 ∧
    InsertScreenLineUpdate c6db1 "s" "l" UpdateType_LineDel 6 = .ok c6db2 ∧
    c6db2.screenupdate.filter (fun r => r.ScreenId = "s" ∧ r.LineId = "l") =
      [{ UpdateId := c6db1.nextUpdateId, ScreenId := "s", LineId := "l",
         UpdateType := UpdateType_LineDel, UpdateTs := 6 }] := by
  refine ⟨by decide, by decide, by rfl, by rfl, ?_⟩
  exact screenupdate_coalesce_line_del emptyWDB c6db1 c6db2 "s" "l" 5 6
    (by decide) (by decide) (by rfl) (by rfl)

/-! ## Claims C7 and C9: `ArchiveScreen` -/

/-- Pointwise-invariant maps do not change a filter's length. -/
theorem filter_map_length_eq {α : Type} (g : α → α) (q : α → Bool) (l : List α)
    (h : ∀ r ∈ l, q (g r) = q r) :
    ((l.map g).filter q).length = (l.filter q).length := by
  induction l with
  | nil => simp
  | cons r rest ih =>
    have hr := h r (by simp)
    have ih2 := ih (fun x hx => h x (by simp [hx]))
    by_cases hq : q r
    · simp [List.filter_cons, hq, hr, ih2]
    · simp only [Bool.not_eq_true] at hq
      simp [List.filter_cons, hq, hr, ih2]

/-- A map that is the identity except on rows with one fixed `ScreenId`
removes at most one row from any filter, provided screen ids are
unique. -/
theorem filter_map_length_ge (g : ScreenRow → ScreenRow) (q : ScreenRow → Bool)
    (scid : String) (l : List ScreenRow)
    (hg : ∀ r, ¬r.ScreenId = scid → g r = r)
    (hnd : (l.map (·.ScreenId)).Nodup) :
    (l.filter q).length ≤ ((l.map g).filter q).length + 1 := by
  induction l with
  | nil => simp
  | cons r rest ih =>
    simp only [List.map_cons, List.nodup_cons] at hnd
    obtain ⟨hhd, htl⟩ := hnd
    by_cases hmatch : r.ScreenId = scid
    · have hnone : ∀ a ∈ rest, ¬a.ScreenId = scid := by
        intro a ha hc
        refine hhd (List.mem_map.mpr ⟨a, ha, ?_⟩)
        rw [hc, hmatch]
      have hrest : rest.map g = rest := by
        calc rest.map g = rest.map id := List.map_congr_left (fun a ha => hg a (hnone a ha))
        _ = rest := List.map_id rest
      by_cases hq : q (g r)
      · simp only [List.map_cons, List.filter_cons, hq, hrest]
        by_cases hq0 : q r <;> simp [hq0] <;> omega
      · simp only [Bool.not_eq_true] at hq
        simp only [List.map_cons, List.filter_cons, hq, hrest]
        by_cases hq0 : q r <;> simp [hq0] <;> omega
    · have hgr : g r = r := hg r hmatch
      have ihh := ih htl
      by_cases hq0 : q r
      · simp only [List.map_cons, List.filter_cons, hgr, hq0]
        simp only [if_pos] <;> simp <;> omega
      · simp only [Bool.not_eq_true] at hq0
        simp [List.filter_cons, hgr, hq0]
        omega

/-- `ArchiveScreen` either leaves the store unchanged or (when the
session had at least two non-archived screens) archives the rows
matching `(sid, scid)` in place. -/
theorem archive_screen_cases (db : WDB) (sid scid : String) (ts : Int) :
    (ArchiveScreen db sid scid ts).1 = db ∨
    (¬numNonArchived db sid ≤ 1 ∧
      ((ArchiveScreen db sid scid ts).1).screen = db.screen.map (archMap sid scid ts)) := by
  by_cases h1 : db.screen.any (fun r => r.SessionId = sid ∧ r.ScreenId = scid) = true
  · by_cases h2 : IsWebShare db scid = true
    · left
      unfold ArchiveScreen
      rw [if_neg (not_not_intro h1), if_pos h2]
    · by_cases h4 : numNonArchived db sid ≤ 1
      · left
        cases hf : db.screen.find? (fun r => r.SessionId = sid ∧ r.ScreenId = scid) with
        | none =>
          unfold ArchiveScreen
          rw [if_neg (not_not_intro h1), if_neg h2, hf]
          simp only [Bool.false_eq_true, if_false, if_pos h4]
        | some r =>
          by_cases hA : r.Archived = true
          · unfold ArchiveScreen
            rw [if_neg (not_not_intro h1), if_neg h2, hf]
            simp only [hA, if_true]
          · have hA2 : r.Archived = false := by simpa using hA
            unfold ArchiveScreen
            rw [if_neg (not_not_intro h1), if_neg h2, hf]
            simp only [hA2, Bool.false_eq_true, if_false, if_pos h4]
      · cases hf : db.screen.find? (fun r => r.SessionId = sid ∧ r.ScreenId = scid) with
        | none =>
          right
          refine ⟨h4, ?_⟩
          unfold ArchiveScreen
          rw [if_neg (not_not_intro h1), if_neg h2, hf]
          simp only [Bool.false_eq_true, if_false, if_neg h4, apply_ite, ite_self]
          rfl
        | some r =>
          by_cases hA : r.Archived = true
          · left
            unfold ArchiveScreen
            rw [if_neg (not_not_intro h1), if_neg h2, hf]
            simp only [hA, if_true]
          · have hA2 : r.Archived = false := by simpa using hA
            right
            refine ⟨h4, ?_⟩
            unfold ArchiveScreen
            rw [if_neg (not_not_intro h1), if_neg h2, hf]
            simp only [hA2, Bool.false_eq_true, if_false, if_neg h4, apply_ite, ite_self]
            rfl
  · left
    unfold ArchiveScreen
    rw [if_pos h1]

/-- C7.  (1) `ArchiveScreen` fails and leaves the store unchanged when
the target screen exists but is web-shared or is the session's only
non-archived screen; (2) a session with at least one non-archived
screen still has one after any `ArchiveScreen` call (given unique
screen ids), so archiving can never empty a session. -/
theorem archive_screen_guards (db : WDB) (sid scid : String) (ts : Int) :
    ((∃ r ∈ db.screen, r.SessionId = sid ∧ r.ScreenId = scid) →
      (IsWebShare db scid = true ∨
        ((∀ r ∈ db.screen, r.SessionId = sid ∧ r.ScreenId = scid → r.Archived = false) ∧
          numNonArchived db sid ≤ 1)) →
      (ArchiveScreen db sid scid ts).1 = db ∧ (ArchiveScreen db sid scid ts).2.isSome) ∧
    (ScreenIdsNodup db →
      ∀ s2, 1 ≤ numNonArchived db s2 → 1 ≤ numNonArchived (ArchiveScreen db sid scid ts).1 s2) := by
  constructor
  · intro hex hguard
    have hany : db.screen.any (fun r => r.SessionId = sid ∧ r.ScreenId = scid) = true := by
      simpa using hex
    by_cases hws : IsWebShare db scid = true
    · unfold ArchiveScreen
      rw [if_neg (not_not_intro hany), if_pos hws]
      exact ⟨rfl, rfl⟩
    · rcases hguard with hguard | ⟨hnarch, hcnt⟩
      · exact absurd hguard hws
      · obtain ⟨r, hrmem, hrp⟩ := hex
        have hfindsome :
            (db.screen.find? (fun r => r.SessionId = sid ∧ r.ScreenId = scid)).isSome := by
          rw [List.find?_isSome]
          exact ⟨r, hrmem, by simpa using hrp⟩
        obtain ⟨r0, hr0⟩ := Option.isSome_iff_exists.mp hfindsome
        have hr0mem := List.mem_of_find?_eq_some hr0
        have hr0m : r0.SessionId = sid ∧ r0.ScreenId = scid := by
          simpa using List.find?_some hr0
        have hr0arch : r0.Archived = false := hnarch r0 hr0mem hr0m
        unfold ArchiveScreen
        rw [if_neg (not_not_intro hany), if_neg hws, hr0]
        simp only [hr0arch, Bool.false_eq_true, if_false, if_pos hcnt]
        constructor <;> trivial
  · intro hnd s2 h1
    rcases archive_screen_cases db sid scid ts with hsame | ⟨hcnt, hscr⟩
    · rw [hsame]
      exact h1
    · have hresult : numNonArchived (ArchiveScreen db sid scid ts).1 s2 =
          ((db.screen.map (archMap sid scid ts)).filter
            (fun r => r.SessionId = s2 ∧ ¬r.Archived)).length := by
        unfold numNonArchived
        rw [hscr]
      rw [hresult]
      unfold numNonArchived at h1 hcnt
      by_cases hs2 : s2 = sid
      · subst hs2
        have hge := filter_map_length_ge (archMap s2 scid ts)
          (fun r => r.SessionId = s2 ∧ ¬r.Archived) scid db.screen
          (fun r hr => by simp [archMap, hr]) hnd
        omega
      · have heq := filter_map_length_eq (archMap sid scid ts)
          (fun r => r.SessionId = s2 ∧ ¬r.Archived) db.screen
          (fun r _ => by
            unfold archMap
            split
            · rename_i hc
              simp [hc.1, hs2, Ne.symm hs2]
            · rfl)
        omega

/-- Witness for C7 at concrete inputs (a two-screen session where the
target is the only screen in part (1)'s sense fails; part (2) applied
to a successful archive). -/
theorem archive_screen_guards_witness :
    ((∃ r ∈ ({ emptyWDB with
        screen := [{ ScreenId := "sc", SessionId := "se", Name := "s1", ScreenIdx := 1,
                     ShareMode := "local", Archived := false, ArchivedTs := 0,
                     NextLineNum := 1 }] } : WDB).screen,
        r.SessionId = "se" ∧ r.ScreenId = "sc") →
      (IsWebShare { emptyWDB with
        screen := [{ ScreenId := "sc", SessionId := "se", Name := "s1", ScreenIdx := 1,
                     ShareMode := "local", Archived := false, ArchivedTs := 0,
                     NextLineNum := 1 }] } "sc" = true ∨
        ((∀ r ∈ ({ emptyWDB with
            screen := [{ ScreenId := "sc", SessionId := "se", Name := "s1", ScreenIdx := 1,
                         ShareMode := "local", Archived := false, ArchivedTs := 0,
                         NextLineNum := 1 }] } : WDB).screen,
            r.SessionId = "se" ∧ r.ScreenId = "sc" → r.Archived = false) ∧
          numNonArchived { emptyWDB with
            screen := [{ ScreenId := "sc", SessionId := "se", Name := "s1", ScreenIdx := 1,
                         ShareMode := "local", Archived := false, ArchivedTs := 0,
                         NextLineNum := 1 }] } "se" ≤ 1)) →
      (ArchiveScreen { emptyWDB with
        screen := [{ ScreenId := "sc", SessionId := "se", Name := "s1", ScreenIdx := 1,
                     ShareMode := "local", Archived := false, ArchivedTs := 0,
                     NextLineNum := 1 }] } "se" "sc" 99).1 =
        { emptyWDB with
          screen := [{ ScreenId := "sc", SessionId := "se", Name := "s1", ScreenIdx := 1,
                       ShareMode := "local", Archived := false, ArchivedTs := 0,
                       NextLineNum := 1 }] } ∧
      (ArchiveScreen { emptyWDB with
        screen := [{ ScreenId := "sc", SessionId := "se", Name := "s1", ScreenIdx := 1,
                     ShareMode := "local", Archived := false, ArchivedTs := 0,
                     NextLineNum := 1 }] } "se" "sc" 99).2.isSome) ∧
    (ScreenIdsNodup { emptyWDB with
      screen := [{ ScreenId := "sc", SessionId := "se", Name := "s1", ScreenIdx := 1,
                   ShareMode := "local", Archived := false, ArchivedTs := 0,
                   NextLineNum := 1 }] } →
      ∀ s2, 1 ≤ numNonArchived { emptyWDB with
        screen := [{ ScreenId := "sc", SessionId := "se", Name := "s1", ScreenIdx := 1,
                     ShareMode := "local", Archived := false, ArchivedTs := 0,
                     NextLineNum := 1 }] } s2 →
        1 ≤ numNonArchived (ArchiveScreen { emptyWDB with
          screen := [{ ScreenId := "sc", SessionId := "se", Name := "s1", ScreenIdx := 1,
                       ShareMode := "local", Archived := false, ArchivedTs := 0,
                       NextLineNum := 1 }] } "se" "sc" 99).1 s2) :=
  archive_screen_guards _ "se" "sc" 99

/-! ## Claim C9: `ArchiveScreen` is idempotent on archived screens -/

/-- C9: archiving a screen that exists, is not web-shared, and is
already archived succeeds and changes nothing. -/
theorem archive_screen_idempotent_on_archived (db : WDB) (sid scid : String) (ts : Int)
    (hex : ∃ r ∈ db.screen, r.SessionId = sid ∧ r.ScreenId = scid)
    (hws : IsWebShare db scid = false)
    (harch : ∀ r ∈ db.screen, r.SessionId = sid ∧ r.ScreenId = scid → r.Archived = true) :
    ArchiveScreen db sid scid ts = (db, none) := by
  have hany : db.screen.any (fun r => r.SessionId = sid ∧ r.ScreenId = scid) = true := by
    simpa using hex
  obtain ⟨r, hrmem, hrp⟩ := hex
  have hfindsome :
      (db.screen.find? (fun r => r.SessionId = sid ∧ r.ScreenId = scid)).isSome := by
    rw [List.find?_isSome]
    exact ⟨r, hrmem, by simpa using hrp⟩
  obtain ⟨r0, hr0⟩ := Option.isSome_iff_exists.mp hfindsome
  have hr0mem := List.mem_of_find?_eq_some hr0
  have hr0m : r0.SessionId = sid ∧ r0.ScreenId = scid := by
    simpa using List.find?_some hr0
  have hr0arch : r0.Archived = true := harch r0 hr0mem hr0m
  unfold ArchiveScreen
  rw [if_neg (not_not_intro hany), if_neg (by simp [hws]), hr0]
  simp only [hr0arch, if_true]

/-- Witness for C9 at a concrete input. -/
theorem archive_screen_idempotent_on_archived_witness :
    (∃ r ∈ ({ emptyWDB with
        screen := [{ ScreenId := "sc", SessionId := "se", Name := "s1", ScreenIdx := 0,
                     ShareMode := "local", Archived := true, ArchivedTs := 7,
                     NextLineNum := 1 }] } : WDB).screen,
      r.SessionId = "se" ∧ r.ScreenId = "sc") ∧
    IsWebShare { emptyWDB with
      screen := [{ ScreenId := "sc", SessionId := "se", Name := "s1", ScreenIdx := 0,
                   ShareMode := "local", Archived := true, ArchivedTs := 7,
                   NextLineNum := 1 }] } "sc" = false ∧
    ArchiveScreen { emptyWDB with
      screen := [{ ScreenId := "sc", SessionId := "se", Name := "s1", ScreenIdx := 0,
                   ShareMode := "local", Archived := true, ArchivedTs := 7,
                   NextLineNum := 1 }] } "se" "sc" 99 =
      ({ emptyWDB with
        screen := [{ ScreenId := "sc", SessionId := "se", Name := "s1", ScreenIdx := 0,
                     ShareMode := "local", Archived := true, ArchivedTs := 7,
                     NextLineNum := 1 }] }, none) := by
  refine ⟨by decide, by decide, ?_⟩
  exact archive_screen_idempotent_on_archived _ "se" "sc" 99
    (by decide) (by decide) (by decide)

/-! ## Claim C10: `WriteMeta` frame property -/

/-- C10: a successful `WriteMeta` replaces only the `Meta` map of the
target file's cached `FileInfo`.  The SQL backend, every other cache
entry, the target entry's data blocks and refcount, and the remaining
`FileInfo` fields are untouched (when the entry was not yet cached it
is populated from the SQL row with empty data blocks, exactly what
`Stat` alone would have done). -/
theorem write_meta_frame (s : BSState) (bid name : String) (meta : FileMeta)
    (hok : (WriteMeta s bid name meta).2 = none) :
    (WriteMeta s bid name meta).1.db = s.db ∧
    (∀ k, k ≠ (bid, name) →
      findEnt (WriteMeta s bid name meta).1.cache k = findEnt s.cache k) ∧
    ∃ e1, findEnt (WriteMeta s bid name meta).1.cache (bid, name) = some e1 ∧
      e1.Info.Meta = meta ∧
      (match findEnt s.cache (bid, name) with
       | some e0 => e1.Info = { e0.Info with Meta := meta } ∧
           e1.DataBlocks = e0.DataBlocks ∧ e1.Refs = e0.Refs
       | none => (∃ f, findEnt s.db (bid, name) = some f ∧
           e1.Info = { f.info with Meta := meta }) ∧ e1.DataBlocks = [] ∧ e1.Refs = 0) := by
  cases hc : findEnt s.cache (bid, name) with
  | some e0 =>
    have hwm : WriteMeta s bid name meta =
        (mapInfo s (bid, name) (fun i => { i with Meta := meta }), none) := by
      unfold WriteMeta Stat GetCacheEntry
      simp [hc]
    rw [hwm]
    refine ⟨rfl, ?_, ?_⟩
    · intro k hk
      simp only [mapInfo]
      rw [findEnt_mapEnt]
      rw [if_neg hk]
    · refine ⟨{ e0 with Info := { e0.Info with Meta := meta } }, ?_, rfl, ?_⟩
      · simp only [mapInfo]
        rw [findEnt_mapEnt, if_pos rfl, hc]
        rfl
      · exact ⟨rfl, rfl, rfl⟩
  | none =>
    cases hdb : findEnt s.db (bid, name) with
    | none =>
      exfalso
      have : (WriteMeta s bid name meta).2 = some "file not found" := by
        unfold WriteMeta Stat GetCacheEntry GetFileInfo
        rw [hc, hdb]
        rfl
      rw [this] at hok
      cases hok
    | some f =>
      have hpop : Stat s bid name =
          ({ s with cache := s.cache ++
              [((bid, name), { CacheTs := 0, Info := f.info, DataBlocks := [], Refs := 0 })] },
            .ok f.info) := by
        unfold Stat GetCacheEntry GetFileInfo setCacheEntry
        rw [hc, hdb]
        simp [hc]
      have hent : findEnt (s.cache ++
          [((bid, name), ({ CacheTs := 0, Info := f.info, DataBlocks := [], Refs := 0 } : CacheEntry))])
          (bid, name) =
          some { CacheTs := 0, Info := f.info, DataBlocks := [], Refs := 0 } :=
        findEnt_append_self s.cache (bid, name) _ hc
      have hwm : WriteMeta s bid name meta =
          (mapInfo { s with cache := s.cache ++
              [((bid, name), { CacheTs := 0, Info := f.info, DataBlocks := [], Refs := 0 })] }
            (bid, name) (fun i => { i with Meta := meta }), none) := by
        unfold WriteMeta
        rw [hpop]
        unfold GetCacheEntry
        simp only
        rw [hent]
      rw [hwm]
      refine ⟨rfl, ?_, ?_⟩
      · intro k hk
        simp only [mapInfo]
        rw [findEnt_mapEnt, if_neg hk]
        exact findEnt_append_other s.cache (bid, name) k _ hk
      · refine ⟨{ CacheTs := 0, Info := { f.info with Meta := meta }, DataBlocks := [], Refs := 0 },
          ?_, rfl, ?_⟩
        · simp only [mapInfo]
          rw [findEnt_mapEnt, if_pos rfl, hent]
          rfl
        · exact ⟨⟨f, rfl, rfl⟩, rfl, rfl⟩

/-- Witness for C10 at a concrete input. -/
theorem write_meta_frame_witness :
    (WriteMeta c10state "b" "f" [("k", "v")]).2 = none ∧
    (WriteMeta c10state "b" "f" [("k", "v")]).1.db = c10state.db ∧
    (∃ e1, findEnt (WriteMeta c10state "b" "f" [("k", "v")]).1.cache ("b", "f") = some e1 ∧
      e1.Info.Meta = [("k", "v")]) := by
  refine ⟨by decide, ?_, ?_⟩
  · exact (write_meta_frame c10state "b" "f" [("k", "v")] (by decide)).1
  · obtain ⟨e1, h1, h2, _⟩ := (write_meta_frame c10state "b" "f" [("k", "v")] (by decide)).2.2
    exact ⟨e1, h1, h2⟩

/-! ## Concrete evaluations: claims C1 (counterexample), C2, C3, C8 -/

/-- C1 counterexample: on a file with `Opts.MaxSize = 0`, writing the
single chunk `[65]` at offset 0, flushing, and reading one byte back
returns 0 bytes and leaves the destination zeroed — not the written
sequence.  The round-trip claim therefore fails for files whose
`MaxSize` is smaller than the data (the write silently stores
nothing). -/
theorem blockstore_roundtrip_fails_at_maxsize_zero :
    (match writeChunks "b" "f" fileMaxSize0 [[65]] 0 with
     | some s1 => ReadRes.view (ReadAtCall (FlushCache s1) "b" "f" (List.replicate 1 0) 0)
     | none => none) = some ([0], 0, none) ∧ ([0] : List Nat) ≠ [65] :=
  ⟨rfl, by decide⟩

/-- C2: the claim says a circular write at `off = PartSize` (with
`MaxSize = 10`) wraps to `off mod 10 = 8`.  The code keeps the part
index computed from the unwrapped offset, so the in-part position
becomes `8 - PartSize < 0` and the buffer store indexes out of range:
Go panics instead of wrapping. -/
theorem circular_write_at_partsize_panics :
    WriteAt fileCircular10 "b" "f" [65] PartSize = .panic := rfl

/-- C3: on a file created with `MaxSize = 0` (documented as
"unbounded"), `WriteAt([65], 0)` reports 0 bytes written with a nil
error, and after `FlushCache` a 1-byte read returns 0 bytes — the
write was silently dropped instead of being unbounded. -/
theorem maxsize_zero_write_writes_nothing :
    WriteRes.countOf (WriteAt fileMaxSize0 "b" "f" [65] 0) = some (0, none) ∧
    (match WriteAt fileMaxSize0 "b" "f" [65] 0 with
     | .ok s1 _ _ => ReadRes.view (ReadAtCall (FlushCache s1) "b" "f" [0] 0)
     | .panic => none) = some ([0], 0, none) :=
  ⟨rfl, rfl⟩

/-- C8 counterexample: at `off = Size` (both 0 here) with one byte
requested, `ReadAt` returns 0 bytes and NO error, while the claim
requires the "tried to read past the end of the file" error for every
offset at or beyond `Size`. -/
theorem readat_at_size_returns_no_error :
    ReadRes.view (ReadAtCall fileMaxSize100 "b" "f" [7] 0) = some ([7], 0, none) := rfl

/-! ## Claim C4: line-number monotonicity -/

/-- `InsertScreenLineUpdate` touches only `screenupdate` and the
autoincrement counter. -/
theorem insertScreenLineUpdate_preserves (db db1 : WDB) (sid lid ut : String) (ts : Int)
    (h : InsertScreenLineUpdate db sid lid ut ts = .ok db1) :
    db1.line = db.line ∧ db1.screen = db.screen := by
  unfold InsertScreenLineUpdate at h
  split at h
  · cases h
  · split at h
    · cases h
    · split at h <;> split at h <;> (injection h with h; subst h) <;>
        exact ⟨rfl, rfl⟩

/-- Maps that preserve `ScreenId` commute with the screen lookup. -/
theorem find?_map_screenId (g : ScreenRow → ScreenRow)
    (hg : ∀ r, (g r).ScreenId = r.ScreenId) (scr : List ScreenRow) (sid2 : String) :
    (scr.map g).find? (fun r => r.ScreenId = sid2) =
      (scr.find? (fun r => r.ScreenId = sid2)).map g := by
  induction scr with
  | nil => simp
  | cons r rest ih =>
    by_cases hr : r.ScreenId = sid2
    · simp [List.find?_cons, hg, hr]
    · simp [List.find?_cons, hg, hr, ih]

/-- Failed `InsertLine` transactions leave the store unchanged, and
successful ones append exactly one line row carrying the screen's
`nextlinenum`, bump that screen's `nextlinenum`, and touch no other
screen's `nextlinenum`. -/
theorem insertLine_cases (db : WDB) (l : LineRow) (c : Option CmdRow) :
    ((InsertLine db l c).2.isSome ∧ (InsertLine db l c).1 = db) ∨
    ((InsertLine db l c).2 = none ∧
      (InsertLine db l c).1.line =
        db.line ++ [{ l with LineNum := getNextLineNum db l.ScreenId }] ∧
      (∀ sid2, getNextLineNum (InsertLine db l c).1 sid2 =
        if sid2 = l.ScreenId then getNextLineNum db l.ScreenId + 1
        else getNextLineNum db sid2)) := by
  by_cases g1 : l.LineId = ""
  · left
    unfold InsertLine
    rw [if_pos g1]
    exact ⟨rfl, rfl⟩
  by_cases g2 : ¬(l.LineNum = 0)
  · left
    unfold InsertLine
    rw [if_neg g1, if_pos g2]
    exact ⟨rfl, rfl⟩
  by_cases g3 : cmdMissingScreenId c = true
  · left
    unfold InsertLine
    rw [if_neg g1, if_neg g2, if_pos g3]
    exact ⟨rfl, rfl⟩
  by_cases g4 : (l.LineState.length : Int) > MaxLineStateSize
  · left
    unfold InsertLine
    rw [if_neg g1, if_neg g2, if_neg g3, if_pos g4]
    exact ⟨rfl, rfl⟩
  by_cases g5 : ¬db.screen.any (fun r => r.ScreenId = l.ScreenId) = true
  · left
    unfold InsertLine
    rw [if_neg g1, if_neg g2, if_neg g3, if_neg g4, if_pos g5]
    exact ⟨rfl, rfl⟩
  · -- success region
    have hmain : ∀ dbr : WDB,
        dbr.line = db.line ++ [{ l with LineNum := getNextLineNum db l.ScreenId }] →
        dbr.screen = db.screen.map (fun r =>
          if r.ScreenId = l.ScreenId then
            { r with NextLineNum := getNextLineNum db l.ScreenId + 1 } else r) →
        (∀ sid2, getNextLineNum dbr sid2 =
          if sid2 = l.ScreenId then getNextLineNum db l.ScreenId + 1
          else getNextLineNum db sid2) := by
      intro dbr _ hscr sid2
      unfold getNextLineNum
      rw [hscr, find?_map_screenId _ (fun r => by
        by_cases hr : r.ScreenId = l.ScreenId <;> simp [hr])]
      by_cases hs : sid2 = l.ScreenId
      · have hany : db.screen.any (fun r => r.ScreenId = l.ScreenId) = true := by
          simpa using g5
        have hfs : (db.screen.find? (fun r => r.ScreenId = sid2)).isSome := by
          rw [hs, List.find?_isSome]
          obtain ⟨r, hmem, hp⟩ := List.any_eq_true.mp hany
          exact ⟨r, hmem, hp⟩
        obtain ⟨r0, hr0⟩ := Option.isSome_iff_exists.mp hfs
        have hr0p : r0.ScreenId = sid2 := by simpa using List.find?_some hr0
        rw [if_pos hs, hr0]
        simp [hr0p, hs]
        unfold getNextLineNum
        rfl
      · rw [if_neg hs]
        cases hf : db.screen.find? (fun r => r.ScreenId = sid2) with
        | none => rfl
        | some r0 =>
          have hr0p : r0.ScreenId = sid2 := by simpa using List.find?_some hf
          have : ¬r0.ScreenId = l.ScreenId := by
            rw [hr0p]
            exact hs
          simp [this]
    unfold InsertLine
    rw [if_neg g1, if_neg g2, if_neg g3, if_neg g4, if_neg g5]
    simp only []
    split
    · -- web-shared: match on InsertScreenLineUpdate
      split
      · rename_i db4 hislu
        right
        refine ⟨rfl, ?_, ?_⟩
        · rw [(insertScreenLineUpdate_preserves _ _ _ _ _ _ hislu).1]
          cases c <;> rfl
        · apply hmain
          · rw [(insertScreenLineUpdate_preserves _ _ _ _ _ _ hislu).1]
            cases c <;> rfl
          · rw [(insertScreenLineUpdate_preserves _ _ _ _ _ _ hislu).2]
            cases c <;> rfl
      · left
        exact ⟨rfl, rfl⟩
    · right
      refine ⟨rfl, ?_, ?_⟩
      · cases c <;> rfl
      · apply hmain
        · cases c <;> rfl
        · cases c <;> rfl

/-- The per-iteration effect of `DeleteLinesByIds`' loop: line rows
only shrink and the `screen` table is untouched. -/
theorem deleteLinesLoop_effects (sid2 : String) (ws : Bool) (ids : List String) :
    ∀ db dbr : WDB, deleteLinesLoop sid2 ws db ids = .ok dbr →
      dbr.line.Sublist db.line ∧ dbr.screen = db.screen := by
  induction ids with
  | nil =>
    intro db dbr h
    injection h with h
    subst h
    exact ⟨List.Sublist.refl _, rfl⟩
  | cons lid rest ih =>
    intro db dbr h
    unfold deleteLinesLoop at h
    simp only [] at h
    by_cases hcs : (match db.cmd.find? (fun r => r.ScreenId = sid2 ∧ r.LineId = lid) with
        | some r => r.Status
        | none => "") = CmdStatusRunning
    · rw [if_pos hcs] at h
      cases h
    · rw [if_neg hcs] at h
      by_cases hws : ws = true
      · rw [if_pos hws] at h
        split at h
        · rename_i dbu hislu
          have hmid := ih _ _ h
          have hpres := insertScreenLineUpdate_preserves _ _ _ _ _ _ hislu
          constructor
          · refine hmid.1.trans ?_
            rw [hpres.1]
            exact List.filter_sublist _
          · rw [hmid.2, hpres.2]
        · cases h
      · rw [if_neg hws] at h
        have hmid := ih _ _ h
        constructor
        · exact hmid.1.trans (List.filter_sublist _)
        · exact hmid.2

/-- `DeleteLinesByIds` removes line rows (leaving a sublist of the
table) and never touches the `screen` table; failed transactions
change nothing. -/
theorem deleteLines_effects (db : WDB) (sid2 : String) (ids : List String) :
    (DeleteLinesByIds db sid2 ids).1.line.Sublist db.line ∧
    (DeleteLinesByIds db sid2 ids).1.screen = db.screen := by
  unfold DeleteLinesByIds
  cases h : deleteLinesLoop sid2 (IsWebShare db sid2) db ids with
  | ok dbr =>
    simpa using deleteLinesLoop_effects sid2 (IsWebShare db sid2) ids db dbr h
  | error e =>
    exact ⟨List.Sublist.refl _, rfl⟩

/-- One mutator call preserves the line-number invariant and never
decreases the screen's `nextlinenum`. -/
theorem lineOp_step (db : WDB) (sid : String) (op : LineOp) (hinv : LineNumInv db sid) :
    LineNumInv (applyLineOp db op) sid ∧
    getNextLineNum db sid ≤ getNextLineNum (applyLineOp db op) sid := by
  cases op with
  | del sid2 ids =>
    obtain ⟨hsub, hscr⟩ := deleteLines_effects db sid2 ids
    have hnext : getNextLineNum (applyLineOp db (.del sid2 ids)) sid = getNextLineNum db sid := by
      unfold getNextLineNum applyLineOp
      rw [hscr]
    have hsubl : screenLines (applyLineOp db (.del sid2 ids)) sid |>.Sublist (screenLines db sid) := by
      unfold screenLines applyLineOp
      exact hsub.filter _
    refine ⟨⟨hinv.1.sublist hsubl, ?_⟩, le_of_eq hnext.symm⟩
    intro r hr
    rw [hnext]
    exact hinv.2 r (hsubl.subset hr)
  | ins l c =>
    rcases insertLine_cases db l c with ⟨_, hsame⟩ | ⟨_, hline, hnext⟩
    · simp only [applyLineOp]
      rw [hsame]
      exact ⟨hinv, le_refl _⟩
    · by_cases hsid : l.ScreenId = sid
      · have hnx : getNextLineNum (applyLineOp db (.ins l c)) sid =
            getNextLineNum db sid + 1 := by
          simp only [applyLineOp]
          rw [hnext sid, if_pos hsid.symm, hsid]
        have hsl : screenLines (applyLineOp db (.ins l c)) sid =
            screenLines db sid ++ [{ l with LineNum := getNextLineNum db sid }] := by
          unfold screenLines applyLineOp
          rw [hline, List.filter_append, hsid]
          simp [hsid]
        constructor
        · constructor
          · rw [hsl]
            rw [List.pairwise_append]
            refine ⟨hinv.1, by simp, ?_⟩
            intro a ha b hb
            simp only [List.mem_singleton] at hb
            subst hb
            exact hinv.2 a ha
          · intro r hr
            rw [hnx]
            rw [hsl] at hr
            rcases List.mem_append.mp hr with h | h
            · exact lt_trans (hinv.2 r h) (by omega)
            · simp only [List.mem_singleton] at h
              subst h
              show getNextLineNum db sid < getNextLineNum db sid + 1
              omega
        · rw [hnx]
          omega
      · have hnx : getNextLineNum (applyLineOp db (.ins l c)) sid = getNextLineNum db sid := by
          simp only [applyLineOp]
          rw [hnext sid, if_neg (fun h => hsid h.symm)]
        have hsl : screenLines (applyLineOp db (.ins l c)) sid = screenLines db sid := by
          unfold screenLines applyLineOp
          rw [hline, List.filter_append]
          simp [hsid]
        constructor
        · constructor
          · rw [hsl]
            exact hinv.1
          · intro r hr
            rw [hnx]
            rw [hsl] at hr
            exact hinv.2 r hr
        · rw [hnx]

theorem line_numbers_monotonic_aux (sid : String) (ops : List LineOp) :
    ∀ db : WDB, LineNumInv db sid →
      LineNumInv (runLineOps db ops) sid ∧
      List.Pairwise (· < ·) (assignedNums sid db ops) ∧
      (∀ x ∈ assignedNums sid db ops, getNextLineNum db sid ≤ x) := by
  induction ops with
  | nil =>
    intro db hinv
    exact ⟨hinv, by simp [assignedNums], by simp [assignedNums]⟩
  | cons op rest ih =>
    intro db hinv
    obtain ⟨hinv1, hmono⟩ := lineOp_step db sid op hinv
    obtain ⟨hinv2, hpw, hge⟩ := ih (applyLineOp db op) hinv1
    have hrun : runLineOps db (op :: rest) = runLineOps (applyLineOp db op) rest := rfl
    cases op with
    | del sid2 ids =>
      refine ⟨by rw [hrun]; exact hinv2, ?_, ?_⟩
      · simpa [assignedNums] using hpw
      · intro x hx
        simp only [assignedNums, List.nil_append] at hx
        exact le_trans hmono (hge x hx)
    | ins l c =>
      by_cases hcond : l.ScreenId = sid ∧ (InsertLine db l c).2 = none
      · have hassigned : assignedNums sid db (.ins l c :: rest) =
            getNextLineNum db sid :: assignedNums sid (applyLineOp db (.ins l c)) rest := by
          simp [assignedNums, hcond]
        have hnx : getNextLineNum (applyLineOp db (.ins l c)) sid =
            getNextLineNum db sid + 1 := by
          rcases insertLine_cases db l c with ⟨hfail, _⟩ | ⟨_, _, hnext⟩
          · rw [hcond.2] at hfail
            cases hfail
          · simp only [applyLineOp]
            rw [hnext sid, if_pos hcond.1.symm, hcond.1]
        refine ⟨by rw [hrun]; exact hinv2, ?_, ?_⟩
        · rw [hassigned]
          rw [List.pairwise_cons]
          refine ⟨?_, hpw⟩
          intro x hx
          have := hge x hx
          omega
        · intro x hx
          rw [hassigned] at hx
          rcases List.mem_cons.mp hx with h | h
          · omega
          · have := hge x h
            omega
      · have hassigned : assignedNums sid db (.ins l c :: rest) =
            assignedNums sid (applyLineOp db (.ins l c)) rest := by
          simp [assignedNums, hcond]
        refine ⟨by rw [hrun]; exact hinv2, ?_, ?_⟩
        · rw [hassigned]
          exact hpw
        · intro x hx
          rw [hassigned] at hx
          exact le_trans hmono (hge x hx)

/-- C4: starting from any store satisfying the line-number invariant
for a screen, any interleaving of `InsertLine` and `DeleteLinesByIds`
calls preserves it, the numbers handed out by successful inserts are
strictly increasing, and they are strictly greater than every number
already present on the screen — so line numbers are never reused and
the remaining lines are strictly increasing. -/
theorem line_numbers_monotonic (db : WDB) (sid : String) (ops : List LineOp)
    (hinv : LineNumInv db sid) :
    LineNumInv (runLineOps db ops) sid ∧
    List.Pairwise (· < ·)
      ((screenLines db sid).map (·.LineNum) ++ assignedNums sid db ops) := by
  obtain ⟨hinv2, hpw, hge⟩ := line_numbers_monotonic_aux sid ops db hinv
  refine ⟨hinv2, List.pairwise_append.mpr ⟨?_, hpw, ?_⟩⟩
  · exact hinv.1.map _ (fun a b h => h)
  · intro a ha b hb
    obtain ⟨r, hr, hra⟩ := List.mem_map.mp ha
    rw [← hra]
    exact lt_of_lt_of_le (hinv.2 r hr) (hge b hb)

/-- Witness for C4 at concrete inputs. -/
theorem line_numbers_monotonic_witness :
    LineNumInv c4db "sc" ∧
    (LineNumInv (runLineOps c4db c4ops) "sc" ∧
      List.Pairwise (· < ·)
        ((screenLines c4db "sc").map (·.LineNum) ++ assignedNums "sc" c4db c4ops)) :=
  ⟨by constructor <;> decide, line_numbers_monotonic c4db "sc" c4ops (by constructor <;> decide)⟩

/-! ## Claim C8: reads past the end of a non-circular file -/

theorem readBlockLoop_bound (data : List Nat) (pos maxRead destOffset : Int) :
    ∀ (fuel j : Nat) (p : List Nat) (bw : Int), 0 ≤ bw → bw ≤ (j : Int) →
      (match readBlockLoop data pos maxRead destOffset p bw j fuel with
       | .early _ n _ => 0 ≤ n ∧ n ≤ (j : Int) + (fuel : Int)
       | .complete _ bw1 => 0 ≤ bw1 ∧ bw1 ≤ (j : Int) + (fuel : Int)
       | .exit => True) := by
  intro fuel
  induction fuel with
  | zero =>
    intro j p bw h0 hj
    simp only [readBlockLoop]
    exact ⟨h0, by omega⟩
  | succ fuel ih =>
    intro j p bw h0 hj
    simp only [readBlockLoop]
    by_cases h1 : pos + (j : Int) ≥ maxRead
    · rw [if_pos h1]
      constructor <;> omega
    · rw [if_neg h1]
      by_cases h2 : pos + (j : Int) ≥ (data.length : Int)
      · rw [if_pos h2]
        exact ⟨h0, by omega⟩
      · rw [if_neg h2]
        by_cases h3 : (j : Int) + destOffset ≥ (p.length : Int)
        · rw [if_pos h3]
          exact ⟨h0, by omega⟩
        · rw [if_neg h3]
          by_cases h4 : pos + (j : Int) < 0 ∨ (j : Int) + destOffset < 0
          · rw [if_pos h4]
            trivial
          · rw [if_neg h4]
            have := ih (j + 1) (p.set ((j : Int) + destOffset).toNat
              (data.getD (pos + (j : Int)).toNat 0)) (bw + 1) (by omega) (by push_cast; omega)
            revert this
            cases readBlockLoop data pos maxRead destOffset
              (p.set ((j : Int) + destOffset).toNat (data.getD (pos + (j : Int)).toNat 0))
              (bw + 1) (j + 1) fuel with
            | early p1 n e => intro h; exact ⟨h.1, by push_cast at h ⊢; omega⟩
            | complete p1 bw1 => intro h; exact ⟨h.1, by push_cast at h ⊢; omega⟩
            | exit => intro _; trivial

theorem readFromCacheBlock_bound (data p : List Nat) (pos length destOffset maxRead : Int) :
    (match ReadFromCacheBlock data p pos length destOffset maxRead with
     | some (_, b, _) => 0 ≤ b ∧ b ≤ max 0 length
     | none => True) := by
  have hcast : (length.toNat : Int) = max length 0 := Int.ofNat_toNat length
  unfold ReadFromCacheBlock
  by_cases hp : pos > (data.length : Int)
  · rw [if_pos hp]
    exact ⟨le_refl 0, by omega⟩
  · rw [if_neg hp]
    have hb := readBlockLoop_bound data pos maxRead destOffset length.toNat 0 p 0 le_rfl le_rfl
    revert hb
    cases readBlockLoop data pos maxRead destOffset p 0 0 length.toNat with
    | early p2 n e2 =>
      intro hb
      simp only [Nat.cast_zero, zero_add] at hb
      exact ⟨hb.1, by omega⟩
    | complete p2 bw =>
      intro hb
      simp only [Nat.cast_zero, zero_add] at hb
      show (match (if pos + (length.toNat : Int) ≥ maxRead then
          some (p2, bw, some BSError.maxSize) else some (p2, bw, (none : Option BSError))) with
        | some (_, b, _) => 0 ≤ b ∧ b ≤ max 0 length
        | none => True)
      by_cases hpc : pos + (length.toNat : Int) ≥ maxRead
      · rw [if_pos hpc]
        exact ⟨hb.1, by omega⟩
      · rw [if_neg hpc]
        exact ⟨hb.1, by omega⟩
    | exit =>
      intro _
      trivial

theorem readAtLoop_bound (blockId name : String) (fms : Int) :
    ∀ (k : Nat) (s : BSState) (dest : List Nat) (off br btr index : Int), 0 ≤ btr →
      (match readAtLoop blockId name false fms s dest off br btr index k with
       | .done _ _ n _ => n ≤ br + btr
       | .wrap _ _ _ _ => False
       | .panic => True) := by
  intro k
  induction k with
  | zero =>
    intro s dest off br btr index hbtr
    simp only [readAtLoop]
    omega
  | succ k ih =>
    intro s dest off br btr index hbtr
    simp only [readAtLoop]
    cases GetCacheBlock s blockId name index true with
    | panic => trivial
    | err s1 msg => simp only; omega
    | ok s1 block =>
      simp only
      by_cases hco : off - index * PartSize < 0
      · rw [if_pos hco]
        omega
      · rw [if_neg hco]
        cases hrf : ReadFromCacheBlock block.data dest (off - index * PartSize)
            (min btr (PartSize - (off - index * PartSize))) br (fms - index * PartSize) with
        | none => trivial
        | some res =>
          obtain ⟨dest1, b, e⟩ := res
          have hbb : 0 ≤ b ∧ b ≤ max 0 (min btr (PartSize - (off - index * PartSize))) := by
            have h2 := readFromCacheBlock_bound block.data dest (off - index * PartSize)
              (min btr (PartSize - (off - index * PartSize))) br (fms - index * PartSize)
            rw [hrf] at h2
            exact h2
          simp only
          by_cases hbz : b = 0 ∧ (GetCacheEntry s1 blockId name).isNone
          · rw [if_pos hbz]
            trivial
          · rw [if_neg hbz]
            have hble : b ≤ btr := by
              rcases hbb with ⟨h1, h2⟩
              have : max 0 (min btr (PartSize - (off - index * PartSize))) ≤ btr := by omega
              omega
            cases e with
            | none =>
              have := ih s1 dest1 (off + b) (br + b) (btr - b) (index + 1) (by omega)
              revert this
              cases readAtLoop blockId name false fms s1 dest1 (off + b) (br + b) (btr - b)
                  (index + 1) k with
              | done s2 d2 n e2 => intro h; omega
              | wrap s2 d2 b2 n2 => intro h; exact h
              | panic => intro _; trivial
            | some err =>
              cases err with
              | maxSize =>
                simp only [Bool.false_eq_true, if_false]
                have := ih s1 dest1 (off + b) (br + b) (btr - b) (index + 1) (by omega)
                revert this
                cases readAtLoop blockId name false fms s1 dest1 (off + b) (br + b) (btr - b)
                    (index + 1) k with
                | done s2 d2 n e2 => intro h; omega
                | wrap s2 d2 b2 n2 => intro h; exact h
                | panic => intro _; trivial
              | other msg =>
                simp only
                omega

/-- Case analysis of a non-circular `ReadAt` (single unfolding, any
fuel): strictly past-`Size` offsets give the end-of-file error, `off =
Size` gives a 0-byte errorless read, and every successful read returns
at most `Size - off` bytes. -/
theorem readAt_noncirc_cases (blockId name : String) (fuel : Nat) (s : BSState)
    (dest : List Nat) (off : Int) (s1 : BSState) (info : FileInfo)
    (hstat : Stat s blockId name = (s1, .ok info))
    (hcirc : info.Opts.Circular = false) :
    (info.Size < off →
      ReadAt blockId name (fuel + 1) s dest off =
        .ok s1 dest 0 (some "ReadAt error: tried to read past the end of the file")) ∧
    (off = info.Size →
      ReadAt blockId name (fuel + 1) s dest off = .ok s1 dest 0 none) ∧
    (∀ s2 dest2 n e, ReadAt blockId name (fuel + 1) s dest off = .ok s2 dest2 n e →
      n ≤ max 0 (info.Size - off)) := by
  have h1 : info.Size < off →
      ReadAt blockId name (fuel + 1) s dest off =
        .ok s1 dest 0 (some "ReadAt error: tried to read past the end of the file") := by
    intro hlt
    unfold ReadAt
    rw [hstat]
    simp only [hcirc, Bool.false_eq_true, and_false, if_false]
    rw [if_pos hlt]
  have h2 : off = info.Size →
      ReadAt blockId name (fuel + 1) s dest off = .ok s1 dest 0 none := by
    intro he
    unfold ReadAt
    rw [hstat]
    simp only [hcirc, Bool.false_eq_true, and_false, if_false]
    rw [if_neg (by omega : ¬ off > info.Size)]
    have hbtr : ((dest.length : Int) + off) ⊓ info.Size - off = 0 := by omega
    rw [hbtr]
    simp only [neg_zero, Int.zero_fdiv, add_zero]
    have hcond : ¬ (off - off.fdiv PartSize * PartSize > PartSize) := by
      rw [Int.fdiv_eq_ediv _ (by norm_num [PartSize, UnitsKB])]
      have hp : PartSize = 134217728 := by norm_num [PartSize, UnitsKB]
      rw [hp]
      omega
    rw [if_neg hcond]
    simp only [Int.toNat_zero, readAtLoop]
  have h3 : ∀ s2 dest2 n e, ReadAt blockId name (fuel + 1) s dest off = .ok s2 dest2 n e →
      n ≤ max 0 (info.Size - off) := by
    intro s2 dest2 n e hres
    by_cases hlt : info.Size < off
    · rw [h1 hlt] at hres
      injection hres with hs hd hn he2
      omega
    · push_neg at hlt
      unfold ReadAt at hres
      rw [hstat] at hres
      simp only [hcirc, Bool.false_eq_true, and_false, if_false] at hres
      rw [if_neg (by omega : ¬ off > info.Size)] at hres
      have hb := readAtLoop_bound blockId name info.Opts.MaxSize
        (if off - off.fdiv PartSize * PartSize + (((dest.length : Int) + off) ⊓ info.Size - off) >
              PartSize then
            -(-(((dest.length : Int) + off) ⊓ info.Size - off)).fdiv PartSize + 1
          else -(-(((dest.length : Int) + off) ⊓ info.Size - off)).fdiv PartSize).toNat
        s1 dest off 0 (((dest.length : Int) + off) ⊓ info.Size - off) (off.fdiv PartSize)
        (by omega)
      revert hb hres
      cases hlp : readAtLoop blockId name false info.Opts.MaxSize s1 dest off 0
          (((dest.length : Int) + off) ⊓ info.Size - off) (off.fdiv PartSize)
          (if off - off.fdiv PartSize * PartSize + (((dest.length : Int) + off) ⊓ info.Size - off) >
                PartSize then
              -(-(((dest.length : Int) + off) ⊓ info.Size - off)).fdiv PartSize + 1
            else -(-(((dest.length : Int) + off) ⊓ info.Size - off)).fdiv PartSize).toNat with
      | panic =>
        intro hres hb
        exact ReadRes.noConfusion (hres : ReadRes.panic = ReadRes.ok s2 dest2 n e)
      | wrap s2w d2w bw nw =>
        intro hres hb
        exact (hb : False).elim
      | done s2d d2d nd ed =>
        intro hres hb
        have hres2 : ReadRes.ok s2d d2d nd ed = ReadRes.ok s2 dest2 n e := hres
        have hb2 : nd ≤ 0 + (((dest.length : Int) + off) ⊓ info.Size - off) := hb
        injection hres2 with hs hd hn he2
        omega
  exact ⟨h1, h2, h3⟩

/-- C8 (amended): for every non-circular blockstore file, `ReadAt` at
an offset strictly beyond the file's `Size` returns 0 bytes together
with the error "tried to read past the end of the file"; at `off =
Size` it returns 0 bytes with NO error (unlike the original claim, which
required the error already at `off = Size`); and no successful read ever
returns more than `Size - off` bytes. -/
theorem readat_past_end_spec (s : BSState) (blockId name : String) (dest : List Nat)
    (off : Int) (s1 : BSState) (info : FileInfo)
    (hstat : Stat s blockId name = (s1, .ok info))
    (hcirc : info.Opts.Circular = false) :
    (info.Size < off →
      ReadAtCall s blockId name dest off =
        .ok s1 dest 0 (some "ReadAt error: tried to read past the end of the file")) ∧
    (off = info.Size →
      ReadAtCall s blockId name dest off = .ok s1 dest 0 none) ∧
    (∀ s2 dest2 n e, ReadAtCall s blockId name dest off = .ok s2 dest2 n e →
      n ≤ max 0 (info.Size - off)) :=
  readAt_noncirc_cases blockId name (dest.length + 1) s dest off s1 info hstat hcirc

/-- Witness for C8: on the concrete fresh file (`Size = 0`), reading
one byte at offset 5 hits the past-the-end error branch. -/
theorem readat_past_end_spec_witness :
    Stat fileMaxSize100 "b" "f" = (c8state, .ok c8info) ∧
    c8info.Opts.Circular = false ∧
    ((c8info.Size < 5 →
      ReadAtCall fileMaxSize100 "b" "f" [7] 5 =
        .ok c8state [7] 0 (some "ReadAt error: tried to read past the end of the file")) ∧
    ((5 : Int) = c8info.Size →
      ReadAtCall fileMaxSize100 "b" "f" [7] 5 = .ok c8state [7] 0 none) ∧
    (∀ s2 dest2 n e, ReadAtCall fileMaxSize100 "b" "f" [7] 5 = .ok s2 dest2 n e →
      n ≤ max 0 (c8info.Size - 5))) :=
  ⟨by decide, by rfl,
    readat_past_end_spec fileMaxSize100 "b" "f" [7] 5 c8state c8info (by decide) (by rfl)⟩

/-! ## Claim C1: write/flush/read round-trip -/

theorem c1_stat_init (bid name : String) (meta : FileMeta) (M ts : Int) :
    Stat (c1s0 bid name meta M ts) bid name =
      (c1after bid name meta M ts [], .ok (c1info bid name meta M ts 0)) := by
  simp [c1s0, MakeFile, Stat, GetCacheEntry, GetFileInfo, findEnt, setCacheEntry,
    c1after, c1info]

theorem c1_stat_after (bid name : String) (meta : FileMeta) (M ts : Int) (pref : List Nat) :
    Stat (c1after bid name meta M ts pref) bid name =
      (c1after bid name meta M ts pref, .ok (c1info bid name meta M ts pref.length)) := by
  simp [Stat, GetCacheEntry, c1after, findEnt]

theorem c1_stat_flushed (bid name : String) (meta : FileMeta) (M ts : Int) (pref : List Nat) :
    Stat (c1flushed bid name meta M ts pref) bid name =
      (c1readStart bid name meta M ts pref, .ok (c1info bid name meta M ts pref.length)) := by
  simp [Stat, GetCacheEntry, GetFileInfo, c1flushed, c1readStart, findEnt, setCacheEntry]

theorem c1_fdiv_small (n : Int) (h1 : 0 ≤ n) (h2 : n < PartSize) :
    Int.fdiv n PartSize = 0 := by
  rw [Int.fdiv_eq_ediv _ (by norm_num [PartSize, UnitsKB])]
  have hp : PartSize = 134217728 := by norm_num [PartSize, UnitsKB]
  rw [hp] at h2 ⊢
  omega

theorem c1_ceil_one (L : Int) (h1 : 1 ≤ L) (h2 : L ≤ PartSize) :
    -(Int.fdiv (-L) PartSize) = 1 := by
  rw [Int.fdiv_eq_ediv _ (by norm_num [PartSize, UnitsKB])]
  have hp : PartSize = 134217728 := by norm_num [PartSize, UnitsKB]
  rw [hp] at h2 ⊢
  omega

theorem c1_writeBufLoop (p : List Nat) (pos maxWrite btw : Int) (hpos : 0 ≤ pos)
    (hmw : pos + (p.length : Int) ≤ maxWrite) :
    ∀ (fuel j : Nat) (buf : List Nat), p.length = j + fuel → buf.length = pos.toNat + j →
      writeBufLoop p pos maxWrite btw buf j fuel = .ok (buf ++ p.drop j) btw none := by
  intro fuel
  induction fuel with
  | zero =>
    intro j buf hlen hbuf
    simp only [writeBufLoop]
    rw [List.drop_eq_nil_of_le (by omega), List.append_nil]
  | succ fuel ih =>
    intro j buf hlen hbuf
    simp only [writeBufLoop]
    rw [if_neg (by push_cast; omega : ¬ (j : Int) ≥ (p.length : Int))]
    rw [if_neg (by push_cast at hmw ⊢; omega : ¬ pos + (j : Int) ≥ maxWrite)]
    rw [if_neg (by omega : ¬ pos + (j : Int) < 0)]
    rw [if_pos (by omega : (pos + (j : Int)).toNat = buf.length)]
    rw [ih (j + 1) (buf ++ [p.getD j 0]) (by omega) (by simp; omega)]
    rw [List.append_assoc]
    have hj : j < p.length := by omega
    rw [List.getD_eq_getElem p 0 hj]
    rw [show ([p[j]] ++ p.drop (j + 1)) = p[j] :: p.drop (j + 1) from rfl]
    rw [List.getElem_cons_drop p j hj]

theorem c1_readBlockLoop_copy (data : List Nat) (maxRead : Int)
    (hmr : (data.length : Int) ≤ maxRead) :
    ∀ (fuel j : Nat) (rest : List Nat) (bw : Int), j + fuel = data.length →
      rest.length = fuel →
      readBlockLoop data 0 maxRead 0 (data.take j ++ rest) bw j fuel =
        .complete data (bw + (fuel : Int)) := by
  intro fuel
  induction fuel with
  | zero =>
    intro j rest bw hlen hrest
    simp only [readBlockLoop]
    rw [List.eq_nil_of_length_eq_zero hrest, List.append_nil,
      List.take_of_length_le (by omega)]
    norm_num
  | succ fuel ih =>
    intro j rest bw hlen hrest
    have hj : j < data.length := by omega
    simp only [readBlockLoop, zero_add]
    rw [if_neg (by push_cast; omega : ¬ (j : Int) ≥ maxRead)]
    rw [if_neg (by push_cast; omega : ¬ (j : Int) ≥ (data.length : Int))]
    rw [if_neg (by
      simp [List.length_take]
      push_cast
      omega : ¬ (j : Int) + 0 ≥ (((data.take j ++ rest)).length : Int))]
    rw [if_neg (by push_cast; omega : ¬ ((j : Int) < 0 ∨ (j : Int) + 0 < 0))]
    obtain ⟨r0, rest', hr⟩ : ∃ r0 rest', rest = r0 :: rest' := by
      cases rest with
      | nil => simp at hrest
      | cons a b => exact ⟨a, b, rfl⟩
    subst hr
    have hset : (data.take j ++ r0 :: rest').set ((j : Int) + 0).toNat
        (data.getD ((j : Int)).toNat 0) = data.take (j + 1) ++ rest' := by
      have htl : (data.take j).length = j := by simp; omega
      rw [show ((j : Int) + 0).toNat = j by omega]
      rw [List.set_append_right _ _ (by omega)]
      rw [htl, Nat.sub_self]
      rw [show (((j : Int)).toNat) = j by omega]
      rw [List.getD_eq_getElem data 0 hj]
      rw [show ((r0 :: rest').set 0 data[j]) = data[j] :: rest' from rfl]
      rw [← List.take_concat_get data j hj, List.concat_eq_append, List.append_assoc]
      rfl
    rw [hset]
    rw [ih (j + 1) rest' (bw + 1) (by omega) (by simpa using hrest)]
    congr 1
    push_cast
    ring

theorem c1_writeToCacheBlockNum (bid name : String) (meta : FileMeta) (M ts : Int)
    (pref p : List Nat) (pfd : Bool) (hp : p ≠ [])
    (hM : (pref.length : Int) + p.length ≤ M)
    (hP : (pref.length : Int) + p.length < PartSize) :
    WriteToCacheBlockNum (c1after bid name meta M ts pref) bid name p
      (pref.length) (p.length) 0 pfd =
      .ok (c1after bid name meta M ts (pref ++ p)) (0, (p.length : Int), none) := by
  have hwb := c1_writeBufLoop p (pref.length : Int) M (p.length : Int)
    (by positivity) (by omega) p.length 0 pref (by omega) (by simp)
  rw [List.drop_zero] at hwb
  have hP2 : ¬ ((pref.length : Int) + (p.length : Int) > PartSize) := by omega
  by_cases hpref : pref.length = 0
  · have hnil : pref = [] := List.eq_nil_of_length_eq_zero hpref
    subst hnil
    simp only [List.length_nil, Nat.cast_zero, zero_add] at hwb hP2 hM hP
    simp [WriteToCacheBlockNum, GetCacheEntryOrPopulate, GetCacheEntry, c1after,
      findEnt, mapRefs, mapEnt, GetCacheBlock, padBlocks, putBlock, mapInfo,
      GetCacheFromDB, findPart, WriteToCacheBuf, c1info, hP2, hwb, Int.toNat_natCast]
    rw [if_neg hp]
  · simp [WriteToCacheBlockNum, GetCacheEntryOrPopulate, GetCacheEntry, c1after,
      findEnt, mapRefs, mapEnt, GetCacheBlock, padBlocks, putBlock, mapInfo,
      GetCacheFromDB, findPart, WriteToCacheBuf, c1info, hpref, hP2, hwb, Int.toNat_natCast]

theorem c1_writeAtLoop_one (bid name : String) (meta : FileMeta) (M ts : Int)
    (pref p : List Nat) (hp : p ≠ [])
    (hM : (pref.length : Int) + p.length ≤ M)
    (hP : (pref.length : Int) + p.length < PartSize) :
    writeAtLoop bid name false (c1after bid name meta M ts pref) p (pref.length) 0
      (p.length) 0 1 =
      .done (c1after bid name meta M ts (pref ++ p)) (p.length) none := by
  simp only [writeAtLoop]
  rw [show ((pref.length : Int) - 0 * PartSize) = (pref.length : Int) by ring]
  rw [show min ((p.length : Int)) (PartSize - (pref.length : Int)) = (p.length : Int) from
    min_eq_left (by omega)]
  rw [c1_writeToCacheBlockNum bid name meta M ts pref p _ hp hM hP]
  simp

theorem c1_writeAtHelper_step (bid name : String) (meta : FileMeta) (M ts : Int)
    (fuel : Nat) (s : BSState) (pref p : List Nat)
    (hstat : Stat s bid name =
      (c1after bid name meta M ts pref, .ok (c1info bid name meta M ts pref.length)))
    (hM : (pref.length : Int) + p.length ≤ M)
    (hP : (pref.length : Int) + p.length < PartSize) :
    WriteAtHelper bid name (fuel + 1) s p (pref.length) =
      .ok (c1after bid name meta M ts (pref ++ p)) (p.length) none := by
  have hfd : Int.fdiv (pref.length : Int) PartSize = 0 :=
    c1_fdiv_small _ (by positivity) (by omega)
  unfold WriteAtHelper
  rw [hstat, hfd]
  by_cases hp : p = []
  · subst hp
    simp [c1info, c1_ceil_one, Int.zero_fdiv, writeAtLoop,
      show ¬ ((pref.length : Int) - 0 * PartSize + (([] : List Nat).length : Int) > PartSize)
        by simp; omega]
    rw [if_neg (by omega : ¬ PartSize < (pref.length : Int))]
    simp [writeAtLoop]
  · have hL1 : (1 : Int) ≤ (p.length : Int) := by
      have := List.length_pos.mpr hp
      omega
    have hnc0 : -(Int.fdiv (-((p.length : Int))) PartSize) = 1 :=
      c1_ceil_one _ hL1 (by omega)
    simp only [c1info, hnc0]
    rw [if_neg (by simp; omega :
      ¬ ((pref.length : Int) - 0 * PartSize + (p.length : Int) > PartSize))]
    rw [if_neg (by simp : ¬ (M = 0 ∧ (pref.length : Int) > M ∧ false = true))]
    rw [if_neg (by simp : ¬ ((pref.length : Int) > M ∧ false = true))]
    rw [show (Int.toNat 1) = 1 from rfl]
    rw [c1_writeAtLoop_one bid name meta M ts pref p hp hM hP]

theorem c1_writeAt_step (bid name : String) (meta : FileMeta) (M ts : Int)
    (s : BSState) (pref p : List Nat)
    (hstat : Stat s bid name =
      (c1after bid name meta M ts pref, .ok (c1info bid name meta M ts pref.length)))
    (hM : (pref.length : Int) + p.length ≤ M)
    (hP : (pref.length : Int) + p.length < PartSize) :
    WriteAt s bid name p (pref.length) =
      .ok (c1after bid name meta M ts (pref ++ p)) (p.length) none :=
  c1_writeAtHelper_step bid name meta M ts (p.length + 1) s pref p hstat hM hP

theorem c1_writeChunks (bid name : String) (meta : FileMeta) (M ts : Int) :
    ∀ (chunks : List (List Nat)) (pref : List Nat),
      (pref.length : Int) + (chunks.flatten.length : Int) ≤ M →
      (pref.length : Int) + (chunks.flatten.length : Int) < PartSize →
      writeChunks bid name (c1after bid name meta M ts pref) chunks (pref.length) =
        some (c1after bid name meta M ts (pref ++ chunks.flatten)) := by
  intro chunks
  induction chunks with
  | nil =>
    intro pref hM hP
    simp [writeChunks]
  | cons c rest ih =>
    intro pref hM hP
    simp only [List.flatten_cons, List.length_append, Nat.cast_add] at hM hP
    simp only [writeChunks]
    rw [c1_writeAt_step bid name meta M ts _ pref c
      (c1_stat_after bid name meta M ts pref) (by omega) (by omega)]
    simp only []
    rw [show (pref.length : Int) + (c.length : Int) = (((pref ++ c).length : Nat) : Int)
      by push_cast [List.length_append]; ring]
    rw [ih (pref ++ c) (by push_cast [List.length_append]; omega)
      (by push_cast [List.length_append]; omega)]
    rw [List.append_assoc, List.flatten_cons]

theorem c1_flush_after (bid name : String) (meta : FileMeta) (M ts : Int) (pref : List Nat) :
    FlushCache (c1after bid name meta M ts pref) = c1flushed bid name meta M ts pref := by
  by_cases hpref : pref.length = 0
  · have hnil : pref = [] := List.eq_nil_of_length_eq_zero hpref
    subst hnil
    simp [FlushCache, flushEntries, flushBlocks, dbSetInfo, dbSetPart, mapEnt, setPart,
      c1after, c1flushed, c1info]
  · simp [FlushCache, flushEntries, flushBlocks, dbSetInfo, dbSetPart, mapEnt, setPart,
      c1after, c1flushed, c1info, hpref,
      show ¬ ((pref.length : Int) = 0) by exact_mod_cast hpref]

theorem c1_flush_s0 (bid name : String) (meta : FileMeta) (M ts : Int) :
    FlushCache (c1s0 bid name meta M ts) = c1flushed bid name meta M ts [] := by
  simp [FlushCache, flushEntries, c1s0, MakeFile, findEnt, c1flushed, c1info]

theorem c1_read (bid name : String) (meta : FileMeta) (M ts : Int) (pref : List Nat)
    (hM : (pref.length : Int) ≤ M) (hP : (pref.length : Int) < PartSize) :
    ReadRes.view (ReadAtCall (c1flushed bid name meta M ts pref) bid name
      (List.replicate pref.length 0) 0) = some (pref, (pref.length : Int), none) := by
  by_cases hpref : pref.length = 0
  · have hnil : pref = [] := List.eq_nil_of_length_eq_zero hpref
    subst hnil
    simp [ReadAtCall, ReadAt, c1flushed, Stat, GetCacheEntry, GetFileInfo, findEnt,
      setCacheEntry, c1info, readAtLoop, ReadRes.view, Int.zero_fdiv]
  · have hstat := c1_stat_flushed bid name meta M ts pref
    have hL1 : (1 : Int) ≤ (pref.length : Int) := by
      have : 0 < pref.length := Nat.pos_of_ne_zero hpref
      omega
    unfold ReadAtCall
    rw [show (List.replicate pref.length 0).length + 2 =
      ((List.replicate pref.length 0).length + 1) + 1 from rfl]
    unfold ReadAt
    rw [hstat]
    simp only [c1info, Bool.false_eq_true, and_false, if_false, List.length_replicate,
      Int.zero_fdiv, c1_ceil_one _ hL1 (by omega : (pref.length : Int) ≤ PartSize),
      zero_mul, sub_zero]
    rw [if_neg (by omega : ¬ (0 : Int) > (pref.length : Int))]
    rw [show ((pref.length : Int) + 0) ⊓ (pref.length : Int) = (pref.length : Int) by omega]
    rw [c1_ceil_one _ hL1 (by omega : (pref.length : Int) ≤ PartSize)]
    rw [if_neg (by omega : ¬ ((0 : Int) + (pref.length : Int) > PartSize))]
    rw [Int.toNat_one]
    have hgcb : GetCacheBlock (c1readStart bid name meta M ts pref) bid name 0 true =
        .ok (c1readDone bid name meta M ts pref)
          { data := pref, size := (pref.length : Int), dirty := false } := by
      simp [GetCacheBlock, GetCacheEntryOrPopulate, GetCacheEntry, findEnt, c1readStart,
        c1readDone, c1flushed, padBlocks, GetCacheFromDB, findPart, mapEnt, hpref, c1info]
    have hrfcb : ReadFromCacheBlock pref (List.replicate pref.length 0) 0
        ((pref.length : Int)) 0 M =
        some (pref, (pref.length : Int),
          if (0 : Int) + (((pref.length : Int)).toNat : Int) ≥ M then some BSError.maxSize
          else none) := by
      unfold ReadFromCacheBlock
      rw [if_neg (by omega : ¬ (0 : Int) > ((pref.length : Nat) : Int))]
      have hcopy := c1_readBlockLoop_copy pref M (by omega) pref.length 0
        (List.replicate pref.length 0) 0 (by omega) (by simp)
      simp only [List.take_zero, List.nil_append, zero_add] at hcopy
      rw [Int.toNat_natCast, hcopy]
      simp only []
      by_cases hc : (0 : Int) + ((pref.length : Nat) : Int) ≥ M
      · rw [if_pos hc, if_pos hc]
      · rw [if_neg hc, if_neg hc]
    simp only [readAtLoop]
    rw [hgcb]
    simp only [zero_mul, sub_zero]
    rw [if_neg (lt_irrefl (0 : Int))]
    rw [show ((pref.length : Int) ⊓ PartSize) = (pref.length : Int) by omega]
    rw [hrfcb]
    simp only []
    rw [if_neg (fun h => hpref (by exact_mod_cast h.1))]
    by_cases hnm : (0 : Int) + (((pref.length : Int)).toNat : Int) ≥ M
    · rw [if_pos hnm]
      simp [ReadRes.view]
    · rw [if_neg hnm]
      simp [ReadRes.view]

/-- C1 (amended): the round-trip holds for every non-circular file whose
`MaxSize` is at least the total data length: for every byte sequence `B`
of length at most 10 MiB split into chunks written in order at
contiguous offsets from 0 into a fresh file with `MaxSize ≥ len(B)`,
`FlushCache` followed by `ReadAt(0, len(B))` returns exactly `B` (the
original unconditional claim fails when `MaxSize < len(B)`; see the
counterexample). -/
theorem blockstore_write_flush_read_roundtrip (bid name : String) (meta : FileMeta)
    (M ts : Int) (chunks : List (List Nat))
    (h10 : (chunks.flatten.length : Int) ≤ 10 * 1024 * 1024)
    (hM : (chunks.flatten.length : Int) ≤ M) :
    ∃ s1, writeChunks bid name (c1s0 bid name meta M ts) chunks 0 = some s1 ∧
      ReadRes.view (ReadAtCall (FlushCache s1) bid name
        (List.replicate chunks.flatten.length 0) 0) =
        some (chunks.flatten, (chunks.flatten.length : Int), none) := by
  have hpp : PartSize = 134217728 := by norm_num [PartSize, UnitsKB]
  have hP : (chunks.flatten.length : Int) < PartSize := by rw [hpp]; omega
  cases chunks with
  | nil =>
    refine ⟨c1s0 bid name meta M ts, rfl, ?_⟩
    rw [c1_flush_s0]
    simp only [List.flatten_nil, List.length_nil, Nat.cast_zero] at hM ⊢
    have hrd := c1_read bid name meta M ts [] (by simpa using hM) (by simp [hpp])
    simpa using hrd
  | cons c rest =>
    simp only [List.flatten_cons, List.length_append, Nat.cast_add] at hM hP h10
    simp only [writeChunks]
    have hstep := c1_writeAt_step bid name meta M ts _ [] c
      (c1_stat_init bid name meta M ts) (by simpa using (by omega :
        (0 : Int) + (c.length : Int) ≤ M)) (by simpa using (by omega :
        (0 : Int) + (c.length : Int) < PartSize))
    simp only [List.nil_append, List.length_nil, Nat.cast_zero] at hstep
    rw [hstep]
    simp only []
    rw [zero_add]
    rw [c1_writeChunks bid name meta M ts rest c (by omega) (by omega)]
    refine ⟨_, rfl, ?_⟩
    rw [c1_flush_after]
    have hrd := c1_read bid name meta M ts (c ++ rest.flatten)
      (by simp only [List.length_append, Nat.cast_add]; omega)
      (by simp only [List.length_append, Nat.cast_add]; omega)
    simp only [List.flatten_cons]
    exact hrd

/-- Witness for C1: writing `[1]` then `[2, 3]` to a fresh file with
`MaxSize = 100`, flushing, and reading 3 bytes back returns `[1, 2, 3]`. -/
theorem blockstore_write_flush_read_roundtrip_witness :
    (((([[1], [2, 3]] : List (List Nat)).flatten.length : Int) ≤ 10 * 1024 * 1024) ∧
     ((([[1], [2, 3]] : List (List Nat)).flatten.length : Int) ≤ 100)) ∧
    (∃ s1, writeChunks "b" "f" (c1s0 "b" "f" [] 100 0) [[1], [2, 3]] 0 = some s1 ∧
      ReadRes.view (ReadAtCall (FlushCache s1) "b" "f"
        (List.replicate ([[1], [2, 3]] : List (List Nat)).flatten.length 0) 0) =
        some (([[1], [2, 3]] : List (List Nat)).flatten,
          (([[1], [2, 3]] : List (List Nat)).flatten.length : Int), none)) :=
  ⟨⟨by decide, by decide⟩,
    blockstore_write_flush_read_roundtrip "b" "f" [] 100 0 [[1], [2, 3]]
      (by decide) (by decide)⟩

end Waveterm
